import Mathlib

/-!
A shallow embedding of the message transformation and forwarding pipeline of
`mqtt_forwarder.py` (class `MQTTForwarder`): the `on_message` callback, its
helpers `is_json` and `convert_json_format`, and the envelope serialization
performed by `forward_message` (`json.dumps(..., ensure_ascii=False)`).

Modelling conventions:
* Payload bytes are `List Nat`; `bytes.decode("utf-8")` is `utf8Decode`.
* Python values flowing through the handler are modelled by the `Json` sum
  type.  Python floats are modelled as exact decimal literals (sign, digit
  string, number of fractional digits); the non-finite literals `NaN` and
  `Infinity` accepted by Python's parser are outside the model.
* `json.loads` is `loads` (a fuel-driven recursive-descent parser following
  CPython's `json` module grammar, including the dict insertion-order and
  duplicate-key-overwrite semantics), `json.dumps(..., ensure_ascii=False)`
  is `dumps`.
* The handler performs no writes to `self`, so the state is threaded through
  unchanged; its observable effect is an `Outcome` value.
-/

namespace MqttForwarder

/-- Characters removed by Python `str.strip()` (the ASCII whitespace set). -/
def pySpace (c : Char) : Bool :=
  c = ' ' || c = '\t' || c = '\n' || c = '\r' || c = '\x0b' || c = '\x0c'

/-- Python `str.strip()` on a character list. -/
def pyStripList (s : List Char) : List Char :=
  ((s.dropWhile pySpace).reverse.dropWhile pySpace).reverse

/-- Python `str.strip()`. -/
def pyStrip (s : String) : String := String.mk (pyStripList s.data)

/-- Whether the first list is an initial segment of the second. -/
def startsList : List Char → List Char → Bool
  | [], _ => true
  | _ :: _, [] => false
  | p :: ps, c :: cs => p = c && startsList ps cs

/-- Python `str.startswith`. -/
def pyStarts (s p : String) : Bool := startsList p.data s.data

/-- Helper for Python `str.replace(old, "")`: removes every non-overlapping,
leftmost-first occurrence of `old`.  `fuel` bounds the recursion; the length of
the subject string suffices whenever `old` is nonempty. -/
def replaceAux (old : List Char) : Nat → List Char → List Char
  | 0, s => s
  | _ + 1, [] => []
  | fuel + 1, c :: cs =>
    if startsList old (c :: cs) then replaceAux old fuel ((c :: cs).drop old.length)
    else c :: replaceAux old fuel cs

/-- Python `s.replace(old, "")` (every occurrence removed, not only a leading one). -/
def pyReplaceAll (s old : String) : String :=
  String.mk (replaceAux old.data s.data.length s.data)

/-- Whether a byte is a UTF-8 continuation byte. -/
def utf8Cont (b : Nat) : Bool := 0x80 ≤ b && b ≤ 0xBF

/-- Helper for strict UTF-8 decoding; `fuel` bounds the recursion (the input
length suffices, since every step consumes at least one byte). -/
def utf8DecodeAux : Nat → List Nat → Option (List Char)
  | _, [] => some []
  | 0, _ :: _ => none
  | fuel + 1, b :: rest =>
    if b ≤ 0x7F then
      (utf8DecodeAux fuel rest).map (fun cs => Char.ofNat b :: cs)
    else if 0xC2 ≤ b && b ≤ 0xDF then
      match rest with
      | b1 :: rest' =>
        if utf8Cont b1 then
          (utf8DecodeAux fuel rest').map (fun cs =>
            Char.ofNat ((b - 0xC0) * 0x40 + (b1 - 0x80)) :: cs)
        else none
      | _ => none
    else if 0xE0 ≤ b && b ≤ 0xEF then
      match rest with
      | b1 :: b2 :: rest' =>
        if (if b = 0xE0 then 0xA0 ≤ b1 && b1 ≤ 0xBF
            else if b = 0xED then 0x80 ≤ b1 && b1 ≤ 0x9F
            else utf8Cont b1) && utf8Cont b2 then
          (utf8DecodeAux fuel rest').map (fun cs =>
            Char.ofNat ((b - 0xE0) * 0x1000 + (b1 - 0x80) * 0x40 + (b2 - 0x80)) :: cs)
        else none
      | _ => none
    else if 0xF0 ≤ b && b ≤ 0xF4 then
      match rest with
      | b1 :: b2 :: b3 :: rest' =>
        if (if b = 0xF0 then 0x90 ≤ b1 && b1 ≤ 0xBF
            else if b = 0xF4 then 0x80 ≤ b1 && b1 ≤ 0x8F
            else utf8Cont b1) && utf8Cont b2 && utf8Cont b3 then
          (utf8DecodeAux fuel rest').map (fun cs =>
            Char.ofNat ((b - 0xF0) * 0x40000 + (b1 - 0x80) * 0x1000 +
              (b2 - 0x80) * 0x40 + (b3 - 0x80)) :: cs)
        else none
      | _ => none
    else none

/-- Strict UTF-8 decoding of a byte list, mirroring Python `bytes.decode("utf-8")`:
rejects stray lead or continuation bytes, overlong encodings, surrogates and
code points above `U+10FFFF`. -/
def utf8Decode (l : List Nat) : Option String :=
  (utf8DecodeAux l.length l).map String.mk

/-- ASCII encoding of a string whose characters are all below `0x80`; used to
write concrete payload byte lists in examples. -/
def asciiBytes (s : String) : List Nat := s.data.map Char.toNat

/-- Python values produced by `json.loads` and consumed by the handler.
Floats are exact decimal literals: `float neg m e` denotes
`(-1)^neg * m / 10^(e+1)`, i.e. a decimal number printed with exactly `e + 1`
fractional digits (every finite Python float prints with at least one
fractional digit, and `json.loads` never produces a float from an
integer-only literal). -/
inductive Json where
  | null : Json
  | bool (b : Bool) : Json
  | int (n : Int) : Json
  | float (neg : Bool) (m : Nat) (e : Nat) : Json
  | str (s : String) : Json
  | arr (items : List Json) : Json
  | obj (members : List (String × Json)) : Json

/-- Python truthiness (`bool(x)`) of a parsed JSON value: `None`, `False`,
numeric zero, the empty string, the empty list and the empty dict are falsy. -/
def Json.isTruthy : Json → Bool
  | .null => false
  | .bool b => b
  | .int n => n ≠ 0
  | .float _ m _ => m ≠ 0
  | .str s => s ≠ ""
  | .arr l => !l.isEmpty
  | .obj l => !l.isEmpty

/-- Whether the value is a Python `dict` (`isinstance(x, dict)`). -/
def Json.isDict : Json → Bool
  | .obj _ => true
  | _ => false

/-- Python `len` of a dict value (`0` on non-dicts; only applied to dicts). -/
def Json.dictLen : Json → Nat
  | .obj l => l.length
  | _ => 0

/-- Whether the value is a Python `list` (`isinstance(x, list)`): among parsed
JSON values exactly the arrays. -/
def Json.isPyList : Json → Bool
  | .arr _ => true
  | _ => false

/-- CPython dict insertion (`d[k] = v` while building `dict(pairs)`): an
existing key keeps its position and gets the new value; a new key is appended. -/
def dictInsert (ps : List (String × Json)) (k : String) (v : Json) :
    List (String × Json) :=
  if ps.any (fun p => p.1 = k) then
    ps.map (fun p => if p.1 = k then (k, v) else p)
  else ps ++ [(k, v)]

/-- JSON whitespace skipped by CPython's `json` scanner. -/
def jsonWs (c : Char) : Bool := c = ' ' || c = '\t' || c = '\n' || c = '\r'

/-- Drop leading JSON whitespace. -/
def skipWs (s : List Char) : List Char := s.dropWhile jsonWs

/-- Whether a character is an ASCII decimal digit. -/
def isDigitB (c : Char) : Bool := 48 ≤ c.toNat && c.toNat ≤ 57

/-- Numeric value of a hex digit, if the character is one (both cases allowed,
as in CPython's `int(s, 16)` for `\uXXXX` escapes). -/
def hexVal (c : Char) : Option Nat :=
  if 48 ≤ c.toNat && c.toNat ≤ 57 then some (c.toNat - 48)
  else if 97 ≤ c.toNat && c.toNat ≤ 102 then some (c.toNat - 87)
  else if 65 ≤ c.toNat && c.toNat ≤ 70 then some (c.toNat - 55)
  else none

/-- Combines four hex digits into a code unit, if all four are hex digits. -/
def hex4 (c1 c2 c3 c4 : Char) : Option Nat :=
  match hexVal c1, hexVal c2, hexVal c3, hexVal c4 with
  | some h1, some h2, some h3, some h4 => some (((h1 * 16 + h2) * 16 + h3) * 16 + h4)
  | _, _, _, _ => none

/-- Translation table for the short backslash escapes (CPython `BACKSLASH`). -/
def shortEscape (e : Char) : Option Char :=
  if e = '"' then some '"'
  else if e = '\\' then some '\\'
  else if e = '/' then some '/'
  else if e = 'b' then some '\x08'
  else if e = 'f' then some '\x0c'
  else if e = 'n' then some '\n'
  else if e = 'r' then some '\r'
  else if e = 't' then some '\t'
  else none

/-- Helper for `scanString`; `fuel` bounds the recursion (the input length
suffices, since every step consumes at least one character). -/
def scanStringAux : Nat → List Char → Option (List Char × List Char)
  | _, [] => none
  | 0, _ :: _ => none
  | fuel + 1, c :: rest =>
    if c = '"' then some ([], rest)
    else if c = '\\' then
      match rest with
      | 'u' :: c1 :: c2 :: c3 :: c4 :: rest2 =>
        match hex4 c1 c2 c3 c4 with
        | none => none
        | some u1 =>
          if 0xD800 ≤ u1 && u1 ≤ 0xDBFF then
            match rest2 with
            | '\\' :: 'u' :: d1 :: d2 :: d3 :: d4 :: rest4 =>
              match hex4 d1 d2 d3 d4 with
              | none => none
              | some u2 =>
                if 0xDC00 ≤ u2 && u2 ≤ 0xDFFF then
                  (scanStringAux fuel rest4).map (fun p =>
                    (Char.ofNat (0x10000 + (u1 - 0xD800) * 0x400 + (u2 - 0xDC00)) :: p.1,
                     p.2))
                else none
            | _ => none
          else if 0xDC00 ≤ u1 && u1 ≤ 0xDFFF then none
          else (scanStringAux fuel rest2).map (fun p => (Char.ofNat u1 :: p.1, p.2))
      | e :: rest' =>
        match shortEscape e with
        | some ch => (scanStringAux fuel rest').map (fun p => (ch :: p.1, p.2))
        | none => none
      | [] => none
    else if c.toNat < 0x20 then none
    else (scanStringAux fuel rest).map (fun p => (c :: p.1, p.2))

/-- Scans a JSON string body after the opening quote (CPython `py_scanstring`,
strict mode): raw control characters are rejected, the short escapes and
`\uXXXX` (with surrogate-pair combination) are decoded.  Lone surrogates,
which CPython would keep in the `str`, fall outside Lean's `Char` and make
the scan fail here. -/
def scanString (l : List Char) : Option (List Char × List Char) :=
  scanStringAux l.length l

/-- Value of a digit string, most significant first. -/
def digitsVal (ds : List Char) : Nat := ds.foldl (fun a c => 10 * a + (c.toNat - 48)) 0

/-- Integer part of the JSON number grammar `(0|[1-9][0-9]*)`: a leading `'0'`
ends the integer part at once (no leading zeros), otherwise the maximal digit
run is taken. -/
def parseIntPart : List Char → Option (List Char × List Char)
  | [] => none
  | c :: t =>
    if ¬ (isDigitB c) then none
    else if c = '0' then some (['0'], t)
    else some ((c :: t).takeWhile isDigitB, (c :: t).dropWhile isDigitB)

/-- Optional leading minus sign `-?`. -/
def parseSign (s : List Char) : Bool × List Char :=
  match s with
  | '-' :: t => (true, t)
  | _ => (false, s)

/-- Optional fraction `(\.[0-9]+)?`: consumed only when the dot is followed by
at least one digit, exactly as the regex backtracks. -/
def parseFracPart (s : List Char) : List Char × List Char :=
  match s with
  | '.' :: u =>
    if (u.takeWhile isDigitB).isEmpty then ([], s)
    else (u.takeWhile isDigitB, u.dropWhile isDigitB)
  | _ => ([], s)

/-- Sign and digits after the `e`/`E` marker of an exponent `[-+]?[0-9]+`. -/
def parseExpDigits (u : List Char) : Option (Bool × List Char × List Char) :=
  match u with
  | '-' :: w =>
    if (w.takeWhile isDigitB).isEmpty then none
    else some (true, w.takeWhile isDigitB, w.dropWhile isDigitB)
  | '+' :: w =>
    if (w.takeWhile isDigitB).isEmpty then none
    else some (false, w.takeWhile isDigitB, w.dropWhile isDigitB)
  | _ =>
    if (u.takeWhile isDigitB).isEmpty then none
    else some (false, u.takeWhile isDigitB, u.dropWhile isDigitB)

/-- Optional exponent `([eE][-+]?[0-9]+)?`: consumed only when complete. -/
def parseExpPart (s : List Char) : Bool × Bool × List Char × List Char :=
  match s with
  | 'e' :: u =>
    match parseExpDigits u with
    | some (en, ed, r) => (true, en, ed, r)
    | none => (false, false, [], s)
  | 'E' :: u =>
    match parseExpDigits u with
    | some (en, ed, r) => (true, en, ed, r)
    | none => (false, false, [], s)
  | _ => (false, false, [], s)

/-- Scans the JSON number grammar `-?(0|[1-9][0-9]*)(\.[0-9]+)?([eE][-+]?[0-9]+)?`
at the head of the input (CPython's `NUMBER_RE`), producing a Python `int` when
neither a fraction nor an exponent is present and a float (exact decimal in
this model) otherwise.  Returns `none` when not even the integer part matches;
a shorter match simply leaves the unconsumed characters behind, as the regex
does. -/
def parseNumber (s : List Char) : Option (Json × List Char) :=
  let ns := parseSign s
  match parseIntPart ns.2 with
  | none => none
  | some (ip, s2) =>
    let frp := parseFracPart s2
    let exq := parseExpPart frp.2
    if frp.1.isEmpty && ¬ exq.1 then
      let v : Int := Int.ofNat (digitsVal ip)
      some (.int (if ns.1 then -v else v), s2)
    else
      let d := digitsVal (ip ++ frp.1)
      let ex : Int :=
        if exq.2.1 then -(Int.ofNat (digitsVal exq.2.2.1))
        else Int.ofNat (digitsVal exq.2.2.1)
      let scale : Int := Int.ofNat frp.1.length - (if exq.1 then ex else 0)
      if scale ≤ 0 then
        some (.float ns.1 (d * 10 ^ ((1 - scale).toNat)) 0, exq.2.2.2)
      else
        some (.float ns.1 d (scale - 1).toNat, exq.2.2.2)

mutual

/-- CPython `json` scanner `_scan_once`: dispatch on the head character; no
leading whitespace is skipped here (callers do that where CPython does). -/
def parseVal : Nat → List Char → Option (Json × List Char)
  | 0, _ => none
  | fuel + 1, s =>
    match s with
    | [] => none
    | c :: t =>
      if c = '"' then
        (scanString t).map (fun p => (.str (String.mk p.1), p.2))
      else if c = '{' then
        match skipWs t with
        | '}' :: u => some (.obj [], u)
        | u => parseObjItems fuel u []
      else if c = '[' then
        match skipWs t with
        | ']' :: u => some (.arr [], u)
        | u => parseArrItems fuel u []
      else if c = 'n' then
        match s with
        | 'n' :: 'u' :: 'l' :: 'l' :: u => some (.null, u)
        | _ => none
      else if c = 't' then
        match s with
        | 't' :: 'r' :: 'u' :: 'e' :: u => some (.bool true, u)
        | _ => none
      else if c = 'f' then
        match s with
        | 'f' :: 'a' :: 'l' :: 's' :: 'e' :: u => some (.bool false, u)
        | _ => none
      else if c = '-' || isDigitB c then parseNumber s
      else none

/-- Elements of a nonempty JSON array, starting at (whitespace before) the
first element; `acc` holds the elements already read, in order. -/
def parseArrItems : Nat → List Char → List Json → Option (Json × List Char)
  | 0, _, _ => none
  | fuel + 1, s, acc =>
    match parseVal fuel (skipWs s) with
    | none => none
    | some (v, rest) =>
      match skipWs rest with
      | ',' :: u => parseArrItems fuel u (acc ++ [v])
      | ']' :: u => some (.arr (acc ++ [v]), u)
      | _ => none

/-- Members of a nonempty JSON object, starting at (whitespace before) the
first key; `acc` is the dict built so far, with CPython insertion semantics. -/
def parseObjItems : Nat → List Char → List (String × Json) →
    Option (Json × List Char)
  | 0, _, _ => none
  | fuel + 1, s, acc =>
    match skipWs s with
    | '"' :: t =>
      match scanString t with
      | none => none
      | some (kcs, rest) =>
        match skipWs rest with
        | ':' :: u =>
          match parseVal fuel (skipWs u) with
          | none => none
          | some (v, rest2) =>
            let acc' := dictInsert acc (String.mk kcs) v
            match skipWs rest2 with
            | ',' :: w => parseObjItems fuel w acc'
            | '}' :: w => some (.obj acc', w)
            | _ => none
        | _ => none
    | _ => none

end

/-- Python `json.loads`: skip leading whitespace, scan one value, skip
trailing whitespace, and require the input to be exhausted ("Extra data"
otherwise).  The fuel `2 * length + 4` is enough for any input (each unit of
fuel spent corresponds to at least half a consumed character). -/
def loads (s : String) : Option Json :=
  match parseVal (2 * s.data.length + 4) (skipWs s.data) with
  | none => none
  | some (v, rest) => if (skipWs rest).isEmpty then some v else none

/-- Helper for `natDigits`; `fuel` bounds the recursion (`n + 1` suffices). -/
def natDigitsAux : Nat → Nat → List Char
  | 0, _ => []
  | fuel + 1, n =>
    if n < 10 then [Char.ofNat (48 + n)]
    else natDigitsAux fuel (n / 10) ++ [Char.ofNat (48 + n % 10)]

/-- Decimal digits of a natural number, most significant first, without leading
zeros (and `"0"` for zero), as produced by Python `str`. -/
def natDigits (n : Nat) : List Char := natDigitsAux (n + 1) n

/-- Python `str` of an `int`. -/
def intChars (n : Int) : List Char :=
  if n < 0 then '-' :: natDigits n.natAbs else natDigits n.natAbs

/-- Lowercase hex digit, as used by CPython's `\u{0:04x}` escapes. -/
def hexDigitChar (n : Nat) : Char :=
  if n < 10 then Char.ofNat (48 + n) else Char.ofNat (87 + n)

/-- Escaping of one character inside a dumped JSON string with
`ensure_ascii=False` (CPython `py_encode_basestring`): only `"`, `\` and
control characters below `0x20` are escaped; everything else is kept raw. -/
def encodeChar (c : Char) : List Char :=
  if c = '"' then ['\\', '"']
  else if c = '\\' then ['\\', '\\']
  else if c = '\x08' then ['\\', 'b']
  else if c = '\x0c' then ['\\', 'f']
  else if c = '\n' then ['\\', 'n']
  else if c = '\r' then ['\\', 'r']
  else if c = '\t' then ['\\', 't']
  else if c.toNat < 0x20 then
    ['\\', 'u', '0', '0', hexDigitChar (c.toNat / 16), hexDigitChar (c.toNat % 16)]
  else [c]

/-- Dumped form of a string, quotes included. -/
def encodeStr (s : List Char) : List Char :=
  '"' :: s.foldr (fun c acc => encodeChar c ++ acc) ['"']

/-- Printed form of a float: sign, integer part, and exactly `e + 1` fractional
digits, the decimal-literal counterpart of CPython `repr` on the model's
floats. -/
def floatChars (neg : Bool) (m e : Nat) : List Char :=
  let w := e + 1
  (if neg then ['-'] else []) ++ natDigits (m / 10 ^ w) ++
    '.' :: (List.replicate (w - (natDigits (m % 10 ^ w)).length) '0' ++
      natDigits (m % 10 ^ w))

mutual

/-- Characters of `json.dumps(value, ensure_ascii=False)` with the default
separators `", "` and `": "`. -/
def printJson : Json → List Char
  | .null => "null".data
  | .bool true => "true".data
  | .bool false => "false".data
  | .int n => intChars n
  | .float neg m e => floatChars neg m e
  | .str s => encodeStr s.data
  | .arr [] => ['[', ']']
  | .arr (x :: xs) => '[' :: (printJson x ++ printItems xs) ++ [']']
  | .obj [] => ['{', '}']
  | .obj (p :: ps) =>
    '{' :: (encodeStr p.1.data ++ ':' :: ' ' :: printJson p.2 ++ printMembers ps) ++ ['}']

/-- Remaining array elements, each preceded by the `", "` separator. -/
def printItems : List Json → List Char
  | [] => []
  | x :: xs => ',' :: ' ' :: (printJson x ++ printItems xs)

/-- Remaining object members, each preceded by the `", "` separator. -/
def printMembers : List (String × Json) → List Char
  | [] => []
  | p :: ps => ',' :: ' ' :: (encodeStr p.1.data ++ ':' :: ' ' :: printJson p.2 ++ printMembers ps)

end

/-- Python `json.dumps(value, ensure_ascii=False)`. -/
def dumps (j : Json) : String := String.mk (printJson j)

/-- The configuration fields the handler pipeline can observe. -/
structure Config where
  devices : List String
  forward_topic : String
deriving DecidableEq

/-- Mutable state of a `MQTTForwarder` instance as far as the message path is
concerned. -/
structure ForwarderState where
  config : Config
  is_connected : Bool
  is_running : Bool
deriving DecidableEq

/-- The outbound envelope built in `on_message` (`forward_data`).  The
constant-`"park"` field is called `Type` in the source; that word is a Lean
keyword, so the field is named `typeTag` here and serialized under the key
`"Type"`. -/
structure Envelope where
  data : List Json
  SN : String
  typeTag : String
  flexem_timestamp : Int

/-- Observable effect of one `on_message` call.  `skippedEmpty` is the
empty-payload early return, `skippedEmptyJson` the empty-JSON early return,
`notMatched` the silent fall-through when the topic lacks the device pattern,
`errorCaught` the `except` branch that logs the exception at error level, and
`published env` the call to `forward_message` with the envelope. -/
inductive Outcome where
  | skippedEmpty : Outcome
  | skippedEmptyJson : Outcome
  | notMatched : Outcome
  | errorCaught : Outcome
  | published (env : Envelope) : Outcome

/-- `MQTTForwarder.is_json`: whether `json.loads` succeeds on the text. -/
def is_json (text : String) : Bool := (loads text).isSome

/-- `MQTTForwarder.convert_json_format`: a dict becomes the list of
`{"name": key, "value": value}` objects in iteration (= insertion) order;
anything else is returned unchanged. -/
def convert_json_format : Json → Json
  | .obj members =>
    .arr (members.map (fun p => .obj [("name", .str p.1), ("value", p.2)]))
  | d => d

/-- The `data_array` step of `on_message`: a Python `list` is used as is,
anything else is wrapped in a one-element list. -/
def mkDataArray : Json → List Json
  | .arr l => l
  | d => [d]

/-- Body of `on_message` after the successful UTF-8 decode of the payload.
The source guards the second `json.loads` with `is_json`; since parsing is
pure, the pair collapses to one `match` on `loads` whose `none` branch is the
source's `else` (opaque-string) branch. -/
def on_message_text (st : ForwarderState) (topic payload0 : String) (now : Int) :
    ForwarderState × Outcome :=
  let payload := pyStrip payload0
  if payload = "" then (st, .skippedEmpty)
  else if pyStarts topic "status/AMT" then
    let device_id := pyReplaceAll topic "status/AMT"
    match loads payload with
    | some parsed =>
      if !parsed.isTruthy || (parsed.isDict && parsed.dictLen == 0) then
        (st, .skippedEmptyJson)
      else
        let data_content := convert_json_format parsed
        (st, .published ⟨mkDataArray data_content, "AMT" ++ device_id, "park", now⟩)
    | none =>
      (st, .published ⟨mkDataArray (.str payload), "AMT" ++ device_id, "park", now⟩)
  else (st, .notMatched)

/-- `MQTTForwarder.on_message` on raw payload bytes: a `UnicodeDecodeError`
escapes to the surrounding `try` and is logged at error level
(`errorCaught`); the handler writes none of the instance fields, so the state
comes back unchanged in every branch. -/
def on_message (st : ForwarderState) (topic : String) (payloadBytes : List Nat)
    (now : Int) : ForwarderState × Outcome :=
  match utf8Decode payloadBytes with
  | none => (st, .errorCaught)
  | some s => on_message_text st topic s now

/-- Envelope viewed as the Python dict literal built in `on_message`. -/
def Envelope.toJson (e : Envelope) : Json :=
  .obj [("data", .arr e.data), ("SN", .str e.SN), ("Type", .str e.typeTag),
        ("flexem_timestamp", .int e.flexem_timestamp)]

/-- The serialization `forward_message` publishes:
`json.dumps(forward_data, ensure_ascii=False)`. -/
def serializeEnvelope (e : Envelope) : String := dumps e.toJson

/-- Well-formedness of a Python value reachable from `json.loads`: object keys
are pairwise distinct at every level (CPython dicts cannot hold duplicate
keys).  Serialization followed by parsing is the identity on such values. -/
inductive JsonWF : Json → Prop where
  | null : JsonWF .null
  | bool (b : Bool) : JsonWF (.bool b)
  | int (n : Int) : JsonWF (.int n)
  | float (neg : Bool) (m e : Nat) : JsonWF (.float neg m e)
  | str (s : String) : JsonWF (.str s)
  | arr (l : List Json) (h : ∀ j ∈ l, JsonWF j) : JsonWF (.arr l)
  | obj (m : List (String × Json)) (h : ∀ p ∈ m, JsonWF p.2)
      (hk : (m.map Prod.fst).Nodup) : JsonWF (.obj m)

/-- What may follow a printed JSON value inside a dump: nothing, or a
separator/closer.  Keeps the number scanner from running into the next token. -/
def tokenBoundary : List Char → Prop
  | [] => True
  | c :: _ => c = ',' ∨ c = ']' ∨ c = '}'

/-- The head of the list (if any) fails the predicate. -/
def headNot (p : Char → Bool) : List Char → Prop
  | [] => True
  | c :: _ => p c = false

/-- A value is recovered by the scanner from its own dump followed by any
boundary, for every sufficient fuel. -/
def ParsesBack (j : Json) : Prop :=
  ∀ (rest : List Char) (fuel : Nat), tokenBoundary rest →
    2 * (printJson j).length ≤ fuel →
    parseVal fuel (printJson j ++ rest) = some (j, rest)

/-- Whether an outcome is one of the two Skip early returns. -/
def Outcome.isSkip : Outcome → Bool
  | .skippedEmpty => true
  | .skippedEmptyJson => true
  | _ => false

/-- Whether an outcome hands an envelope to `forward_message`. -/
def Outcome.isPublished : Outcome → Bool
  | .published _ => true
  | _ => false

/-- A concrete forwarder state used in closed instances of the theorems. -/
def sampleState : ForwarderState :=
  ⟨⟨["12345678901234"], "forward/topic"⟩, true, true⟩

/-- Unfolding of `on_message` once the payload bytes decode. -/
theorem on_message_eq_text (st : ForwarderState) (topic : String) (bytes : List Nat)
    (now : Int) (s : String) (hd : utf8Decode bytes = some s) :
    on_message st topic bytes now = on_message_text st topic s now := by
  unfold on_message
  rw [hd]

/-- Parsing the empty string fails. -/
theorem loads_empty : loads "" = none := rfl

/-- A payload whose parse succeeds is nonempty. -/
theorem strip_ne_of_loads (s : String) (v : Json) (hp : loads (pyStrip s) = some v) :
    pyStrip s ≠ "" := by
  intro h
  rw [h, loads_empty] at hp
  exact Option.noConfusion hp

/-- The source's empty-JSON test `not parsed_data or (isinstance(parsed_data,
dict) and len(parsed_data) == 0)` is plain Python falsiness: the second
disjunct is subsumed by the first. -/
theorem skipCond_eq_falsy (v : Json) :
    (!v.isTruthy || (v.isDict && v.dictLen == 0)) = !v.isTruthy := by
  cases v <;> simp [Json.isTruthy, Json.isDict, Json.dictLen]

/-- Early return of `on_message` when the stripped payload is empty. -/
theorem text_outcome_of_empty (st : ForwarderState) (topic s : String) (now : Int)
    (h : pyStrip s = "") :
    on_message_text st topic s now = (st, Outcome.skippedEmpty) := by
  unfold on_message_text
  simp [h]

/-- Fall-through of `on_message` when the topic lacks the `status/AMT` pattern. -/
theorem text_outcome_notMatched (st : ForwarderState) (topic s : String) (now : Int)
    (hne : pyStrip s ≠ "") (htop : pyStarts topic "status/AMT" = false) :
    on_message_text st topic s now = (st, Outcome.notMatched) := by
  unfold on_message_text
  simp [hne, htop]

/-- Behaviour of `on_message` on a matching topic and a payload that parses:
a falsy parsed value is skipped, anything else is converted, wrapped and
published. -/
theorem text_outcome_of_parse (st : ForwarderState) (topic s : String) (now : Int)
    (v : Json)
    (htop : pyStarts topic "status/AMT" = true)
    (hp : loads (pyStrip s) = some v) :
    on_message_text st topic s now =
      (st, if v.isTruthy = false then Outcome.skippedEmptyJson
        else Outcome.published ⟨mkDataArray (convert_json_format v),
          "AMT" ++ pyReplaceAll topic "status/AMT", "park", now⟩) := by
  have hne := strip_ne_of_loads s v hp
  unfold on_message_text
  simp only [hne, htop, hp, skipCond_eq_falsy, if_false, ite_true, ite_false,
    Bool.not_eq_true']
  cases hv : v.isTruthy <;> simp [hv]

/-- Behaviour of `on_message` on a matching topic and a nonempty payload that
fails to parse: the stripped text is forwarded as the only data element. -/
theorem text_outcome_of_nonjson (st : ForwarderState) (topic s : String) (now : Int)
    (htop : pyStarts topic "status/AMT" = true)
    (hne : pyStrip s ≠ "") (hnj : loads (pyStrip s) = none) :
    on_message_text st topic s now =
      (st, Outcome.published ⟨[Json.str (pyStrip s)],
        "AMT" ++ pyReplaceAll topic "status/AMT", "park", now⟩) := by
  unfold on_message_text
  simp [hne, htop, hnj, mkDataArray]

/-- C1: the claim says a payload of `"0"` or `"false"` is forwarded as a
one-element array.  The code skips both: `if not parsed_data` is Python
falsiness, and `0` and `False` are falsy.  At topic `"status/AMT1"`, payload
`"0"` (and `"false"`), the handler takes the empty-JSON Skip return and
publishes nothing. -/
theorem C1_counterexample :
    on_message sampleState "status/AMT1" (asciiBytes "0") 0 =
        (sampleState, Outcome.skippedEmptyJson) ∧
      on_message sampleState "status/AMT1" (asciiBytes "false") 0 =
        (sampleState, Outcome.skippedEmptyJson) ∧
      (Outcome.skippedEmptyJson.isSkip = true) ∧
      Outcome.skippedEmptyJson ≠
        Outcome.published ⟨[Json.int 0], "AMT1", "park", 0⟩ := by
  refine ⟨rfl, rfl, rfl, ?_⟩
  intro h
  exact Outcome.noConfusion h

/-- C1 (amended): on a `status/AMT` topic, a valid-JSON payload is skipped
exactly when the parsed value is Python-falsy — `null`, `false`, numeric
zero, the empty string, the empty array or the empty object.  In particular
the payloads `"0"` and `"false"` are skipped, not forwarded. -/
theorem C1_skip_iff_falsy (st : ForwarderState) (topic : String) (bytes : List Nat)
    (now : Int) (s : String) (v : Json)
    (hd : utf8Decode bytes = some s)
    (htop : pyStarts topic "status/AMT" = true)
    (hp : loads (pyStrip s) = some v) :
    (on_message st topic bytes now).2 = Outcome.skippedEmptyJson ↔ v.isTruthy = false := by
  rw [on_message_eq_text st topic bytes now s hd,
    text_outcome_of_parse st topic s now v htop hp]
  cases hv : v.isTruthy <;> simp [hv]

/-- C1 witness: the amended statement instantiated at payload `"0"`. -/
theorem C1_skip_iff_falsy_witness :
    utf8Decode (asciiBytes "0") = some "0" ∧
      pyStarts "status/AMT1" "status/AMT" = true ∧
      loads (pyStrip "0") = some (Json.int 0) ∧
      ((on_message sampleState "status/AMT1" (asciiBytes "0") 0).2 =
          Outcome.skippedEmptyJson ↔ (Json.int 0).isTruthy = false) :=
  ⟨rfl, rfl, rfl,
    C1_skip_iff_falsy sampleState "status/AMT1" (asciiBytes "0") 0 "0" (Json.int 0)
      rfl rfl rfl⟩

/-- C2: the claim says payload `"[1,2,3]"` yields `data == [[1,2,3]]`.  The
code's `data_array = data_content if isinstance(data_content, list) else
[data_content]` uses a parsed array itself as `data`, so the published data is
`[1, 2, 3]`, not the wrapped `[[1, 2, 3]]`. -/
theorem C2_counterexample :
    on_message sampleState "status/AMT1" (asciiBytes "[1,2,3]") 0 =
        (sampleState, Outcome.published
          ⟨[Json.int 1, Json.int 2, Json.int 3], "AMT1", "park", 0⟩) ∧
      [Json.int 1, Json.int 2, Json.int 3] ≠
        [Json.arr [Json.int 1, Json.int 2, Json.int 3]] := by
  refine ⟨rfl, ?_⟩
  simp

/-- C2 (amended): a truthy non-object parse is published; a scalar (string,
number, boolean) is wrapped as the one-element array `[value]`, while an
array is used as `data` directly, without wrapping. -/
theorem C2_nonobject_data (st : ForwarderState) (topic : String) (bytes : List Nat)
    (now : Int) (s : String) (v : Json)
    (hd : utf8Decode bytes = some s)
    (htop : pyStarts topic "status/AMT" = true)
    (hp : loads (pyStrip s) = some v)
    (ht : v.isTruthy = true)
    (hnd : v.isDict = false) :
    (on_message st topic bytes now).2 =
      Outcome.published ⟨(match v with | .arr l => l | w => [w]),
        "AMT" ++ pyReplaceAll topic "status/AMT", "park", now⟩ := by
  rw [on_message_eq_text st topic bytes now s hd,
    text_outcome_of_parse st topic s now v htop hp]
  simp only [ht]
  cases v
  case obj m => exact absurd hnd (by simp [Json.isDict])
  all_goals simp [convert_json_format, mkDataArray]

/-- C2 witness: the amended statement instantiated at payload `"[1,2,3]"`. -/
theorem C2_nonobject_data_witness :
    utf8Decode (asciiBytes "[1,2,3]") = some "[1,2,3]" ∧
      pyStarts "status/AMT1" "status/AMT" = true ∧
      loads (pyStrip "[1,2,3]") = some (Json.arr [Json.int 1, Json.int 2, Json.int 3]) ∧
      (Json.arr [Json.int 1, Json.int 2, Json.int 3]).isTruthy = true ∧
      (on_message sampleState "status/AMT1" (asciiBytes "[1,2,3]") 0).2 =
        Outcome.published ⟨[Json.int 1, Json.int 2, Json.int 3],
          "AMT" ++ pyReplaceAll "status/AMT1" "status/AMT", "park", 0⟩ :=
  ⟨rfl, rfl, rfl, rfl,
    C2_nonobject_data sampleState "status/AMT1" (asciiBytes "[1,2,3]") 0 "[1,2,3]"
      (Json.arr [Json.int 1, Json.int 2, Json.int 3]) rfl rfl rfl rfl rfl⟩

/-- C3: the claim says payload `"[]"` is not skipped and yields `data == [[]]`.
In the code an empty list is Python-falsy, so `if not parsed_data` takes the
empty-JSON Skip return: nothing is published. -/
theorem C3_counterexample :
    on_message sampleState "status/AMT1" (asciiBytes "[]") 0 =
        (sampleState, Outcome.skippedEmptyJson) ∧
      Outcome.skippedEmptyJson.isPublished = false :=
  ⟨rfl, rfl⟩

/-- C3 (amended): on any `status/AMT` topic the payload `"[]"` parses to the
empty array, which is falsy, so the handler returns the empty-JSON Skip and
publishes no envelope. -/
theorem C3_empty_array_skipped (st : ForwarderState) (topic : String) (now : Int)
    (htop : pyStarts topic "status/AMT" = true) :
    on_message st topic (asciiBytes "[]") now = (st, Outcome.skippedEmptyJson) := by
  rw [on_message_eq_text st topic (asciiBytes "[]") now "[]" rfl,
    text_outcome_of_parse st topic "[]" now (Json.arr []) htop rfl]
  rfl

/-- C3 witness: the amended statement at the topic `"status/AMT1"`. -/
theorem C3_empty_array_skipped_witness :
    pyStarts "status/AMT1" "status/AMT" = true ∧
      on_message sampleState "status/AMT1" (asciiBytes "[]") 0 =
        (sampleState, Outcome.skippedEmptyJson) :=
  ⟨rfl, C3_empty_array_skipped sampleState "status/AMT1" 0 rfl⟩

/-- C4: the claim says malformed payloads — invalid JSON or non-UTF-8 bytes —
are never rejected or logged as errors.  The byte `0xFF` is not valid UTF-8:
`msg.payload.decode("utf-8")` raises `UnicodeDecodeError`, the surrounding
`except` logs it at error level, and nothing is forwarded. -/
theorem C4_counterexample :
    on_message sampleState "status/AMT1" [0xFF] 0 = (sampleState, Outcome.errorCaught) ∧
      Outcome.errorCaught.isPublished = false :=
  ⟨rfl, rfl⟩

/-- C4 (amended): only valid-UTF-8, non-JSON payloads reach the opaque-string
fallback and are forwarded with the raw stripped text as the single data
element; payload bytes that are not valid UTF-8 raise `UnicodeDecodeError`,
which the handler's `except` logs at error level, and the message is dropped. -/
theorem C4_malformed_payloads (st : ForwarderState) (topic : String) (bytes : List Nat)
    (now : Int)
    (htop : pyStarts topic "status/AMT" = true) :
    (utf8Decode bytes = none → on_message st topic bytes now = (st, Outcome.errorCaught)) ∧
      (∀ s, utf8Decode bytes = some s → pyStrip s ≠ "" → is_json (pyStrip s) = false →
        on_message st topic bytes now =
          (st, Outcome.published ⟨[Json.str (pyStrip s)],
            "AMT" ++ pyReplaceAll topic "status/AMT", "park", now⟩)) := by
  constructor
  · intro hd
    unfold on_message
    rw [hd]
  · intro s hd hne hnj
    have hnj' : loads (pyStrip s) = none := by
      unfold is_json at hnj
      exact Option.not_isSome_iff_eq_none.mp (by simp [hnj])
    rw [on_message_eq_text st topic bytes now s hd,
      text_outcome_of_nonjson st topic s now htop hne hnj']

/-- C4 witness: the amended statement at the undecodable byte `0xFF` and at
the valid-UTF-8 non-JSON payload `"not json"`. -/
theorem C4_malformed_payloads_witness :
    pyStarts "status/AMT1" "status/AMT" = true ∧
      utf8Decode [0xFF] = none ∧
      (utf8Decode [0xFF] = none →
        on_message sampleState "status/AMT1" [0xFF] 0 = (sampleState, Outcome.errorCaught)) ∧
      (∀ s, utf8Decode (asciiBytes "not json") = some s → pyStrip s ≠ "" →
        is_json (pyStrip s) = false →
        on_message sampleState "status/AMT1" (asciiBytes "not json") 0 =
          (sampleState, Outcome.published ⟨[Json.str (pyStrip s)],
            "AMT" ++ pyReplaceAll "status/AMT1" "status/AMT", "park", 0⟩)) :=
  ⟨rfl, rfl,
    (C4_malformed_payloads sampleState "status/AMT1" [0xFF] 0 rfl).1,
    (C4_malformed_payloads sampleState "status/AMT1" (asciiBytes "not json") 0 rfl).2⟩

/-- C5: the claim says `SN` is `"AMT"` plus the topic suffix obtained by
stripping `"status/AMT"` from the front only.  The code uses
`topic.replace("status/AMT", "")`, which removes every occurrence: for the
topic `"status/AMTstatus/AMT7"` (device ID `"status/AMT7"`) the published
`SN` is `"AMT7"`, not `"AMTstatus/AMT7"`. -/
theorem C5_counterexample :
    on_message sampleState "status/AMTstatus/AMT7" (asciiBytes "1") 0 =
        (sampleState, Outcome.published ⟨[Json.int 1], "AMT7", "park", 0⟩) ∧
      ("AMT7" : String) ≠ "AMTstatus/AMT7" := by
  refine ⟨rfl, ?_⟩
  decide

/-- C5 (amended): for every published envelope, `SN` equals `"AMT"` plus the
topic with every occurrence of `"status/AMT"` removed (leftmost-first,
non-overlapping), the semantics of `str.replace` — not only a leading
occurrence. -/
theorem C5_SN_replace_all (st st' : ForwarderState) (topic : String)
    (bytes : List Nat) (now : Int) (env : Envelope)
    (h : on_message st topic bytes now = (st', Outcome.published env)) :
    env.SN = "AMT" ++ pyReplaceAll topic "status/AMT" := by
  cases hdec : utf8Decode bytes with
  | none =>
    simp only [on_message, hdec] at h
    exact absurd (congrArg Prod.snd h) (by simp)
  | some s =>
    simp only [on_message, hdec] at h
    by_cases hne : pyStrip s = ""
    · rw [text_outcome_of_empty st topic s now hne] at h
      exact absurd (congrArg Prod.snd h) (by simp)
    · by_cases htop : pyStarts topic "status/AMT" = true
      · cases hl : loads (pyStrip s) with
        | none =>
          rw [text_outcome_of_nonjson st topic s now htop hne hl] at h
          have h2 := congrArg Prod.snd h
          simp only [Outcome.published.injEq] at h2
          rw [← h2]
        | some v =>
          rw [text_outcome_of_parse st topic s now v htop hl] at h
          cases ht : v.isTruthy with
          | false =>
            rw [if_pos (by rw [ht])] at h
            exact absurd (congrArg Prod.snd h) (by simp)
          | true =>
            rw [if_neg (by rw [ht]; exact fun hx => Bool.noConfusion hx)] at h
            have h2 := congrArg Prod.snd h
            simp only [Outcome.published.injEq] at h2
            rw [← h2]
      · have htop' : pyStarts topic "status/AMT" = false := by
          cases hx : pyStarts topic "status/AMT"
          · rfl
          · exact absurd hx htop
        rw [text_outcome_notMatched st topic s now hne htop'] at h
        exact absurd (congrArg Prod.snd h) (by simp)

/-- C5 witness: the amended statement at a well-formed topic, where the
removed occurrence is the leading one. -/
theorem C5_SN_replace_all_witness :
    on_message sampleState "status/AMT12345678901234" (asciiBytes "1") 5 =
        (sampleState, Outcome.published
          ⟨[Json.int 1], "AMT12345678901234", "park", 5⟩) ∧
      (Envelope.mk [Json.int 1] "AMT12345678901234" "park" 5).SN =
        "AMT" ++ pyReplaceAll "status/AMT12345678901234" "status/AMT" :=
  ⟨rfl,
    C5_SN_replace_all sampleState sampleState "status/AMT12345678901234"
      (asciiBytes "1") 5 (Envelope.mk [Json.int 1] "AMT12345678901234" "park" 5) rfl⟩

/-- C6: a payload parsing to a dict with at least one key is published with
one `{"name": key, "value": value}` record per key, in the dict's insertion
order (the parse preserves first-occurrence key order, later duplicates only
overwriting the value, as CPython dicts do). -/
theorem C6_object_to_records (st : ForwarderState) (topic : String) (bytes : List Nat)
    (now : Int) (s : String) (members : List (String × Json))
    (hd : utf8Decode bytes = some s)
    (htop : pyStarts topic "status/AMT" = true)
    (hp : loads (pyStrip s) = some (Json.obj members))
    (hne : members ≠ []) :
    (on_message st topic bytes now).2 =
      Outcome.published
        ⟨members.map (fun p => Json.obj [("name", Json.str p.1), ("value", p.2)]),
          "AMT" ++ pyReplaceAll topic "status/AMT", "park", now⟩ := by
  rw [on_message_eq_text st topic bytes now s hd,
    text_outcome_of_parse st topic s now (Json.obj members) htop hp]
  have ht : (Json.obj members).isTruthy = true := by
    cases members with
    | nil => exact absurd rfl hne
    | cons p ps => simp [Json.isTruthy]
  rw [if_neg (by rw [ht]; exact fun hx => Bool.noConfusion hx)]
  simp [convert_json_format, mkDataArray]

/-- C6 witness: the object payload `{"AI1": 0.07997, "AI2": 1}` becomes the
two records in key order. -/
theorem C6_object_to_records_witness :
    utf8Decode (asciiBytes "\x7b\"AI1\": 0.07997, \"AI2\": 1\x7d") =
        some "\x7b\"AI1\": 0.07997, \"AI2\": 1\x7d" ∧
      loads (pyStrip "\x7b\"AI1\": 0.07997, \"AI2\": 1\x7d") =
        some (Json.obj [("AI1", Json.float false 7997 4), ("AI2", Json.int 1)]) ∧
      (on_message sampleState "status/AMT12345678901234"
          (asciiBytes "\x7b\"AI1\": 0.07997, \"AI2\": 1\x7d") 0).2 =
        Outcome.published
          ⟨[Json.obj [("name", Json.str "AI1"), ("value", Json.float false 7997 4)],
            Json.obj [("name", Json.str "AI2"), ("value", Json.int 1)]],
            "AMT" ++ pyReplaceAll "status/AMT12345678901234" "status/AMT", "park", 0⟩ :=
  ⟨rfl, by rfl,
    C6_object_to_records sampleState "status/AMT12345678901234"
      (asciiBytes "\x7b\"AI1\": 0.07997, \"AI2\": 1\x7d") 0 "\x7b\"AI1\": 0.07997, \"AI2\": 1\x7d"
      [("AI1", Json.float false 7997 4), ("AI2", Json.int 1)] rfl rfl (by rfl)
      (by simp)⟩

/-- C7: the empty or whitespace-only payload is skipped before any parsing,
and on a device topic the payloads `"{}"` and `"null"` parse to falsy values
and are skipped by the empty-JSON check; in all three cases nothing is
published. -/
theorem C7_skip_empty_null_emptyobj :
    (∀ (st : ForwarderState) (topic : String) (bytes : List Nat) (now : Int)
      (s : String), utf8Decode bytes = some s → pyStrip s = "" →
        on_message st topic bytes now = (st, Outcome.skippedEmpty)) ∧
      (∀ (st : ForwarderState) (topic : String) (now : Int),
        pyStarts topic "status/AMT" = true →
          on_message st topic (asciiBytes "{}") now = (st, Outcome.skippedEmptyJson)) ∧
      (∀ (st : ForwarderState) (topic : String) (now : Int),
        pyStarts topic "status/AMT" = true →
          on_message st topic (asciiBytes "null") now = (st, Outcome.skippedEmptyJson)) := by
  refine ⟨?_, ?_, ?_⟩
  · intro st topic bytes now s hd hstrip
    rw [on_message_eq_text st topic bytes now s hd,
      text_outcome_of_empty st topic s now hstrip]
  · intro st topic now htop
    rw [on_message_eq_text st topic (asciiBytes "{}") now "{}" rfl,
      text_outcome_of_parse st topic "{}" now (Json.obj []) htop rfl]
    rfl
  · intro st topic now htop
    rw [on_message_eq_text st topic (asciiBytes "null") now "null" rfl,
      text_outcome_of_parse st topic "null" now Json.null htop rfl]
    rfl

/-- C7 witness: the three skip families at concrete inputs — a whitespace-only
payload, `"{}"` and `"null"`. -/
theorem C7_skip_empty_null_emptyobj_witness :
    utf8Decode (asciiBytes "  \t ") = some "  \t " ∧
      pyStrip "  \t " = "" ∧
      on_message sampleState "status/AMT1" (asciiBytes "  \t ") 0 =
        (sampleState, Outcome.skippedEmpty) ∧
      on_message sampleState "status/AMT1" (asciiBytes "{}") 0 =
        (sampleState, Outcome.skippedEmptyJson) ∧
      on_message sampleState "status/AMT1" (asciiBytes "null") 0 =
        (sampleState, Outcome.skippedEmptyJson) :=
  ⟨rfl, rfl,
    C7_skip_empty_null_emptyobj.1 sampleState "status/AMT1" (asciiBytes "  \t ") 0
      "  \t " rfl rfl,
    C7_skip_empty_null_emptyobj.2.1 sampleState "status/AMT1" 0 rfl,
    C7_skip_empty_null_emptyobj.2.2 sampleState "status/AMT1" 0 rfl⟩

/-- C8: a valid-UTF-8 payload whose stripped text is nonempty and not valid
JSON is forwarded with that stripped text as the only data element. -/
theorem C8_opaque_string_fallback (st : ForwarderState) (topic : String)
    (bytes : List Nat) (now : Int) (s : String)
    (hd : utf8Decode bytes = some s)
    (htop : pyStarts topic "status/AMT" = true)
    (hne : pyStrip s ≠ "")
    (hnj : is_json (pyStrip s) = false) :
    ∃ env, (on_message st topic bytes now).2 = Outcome.published env ∧
      env.data = [Json.str (pyStrip s)] := by
  have hnj' : loads (pyStrip s) = none := by
    unfold is_json at hnj
    exact Option.not_isSome_iff_eq_none.mp (by simp [hnj])
  rw [on_message_eq_text st topic bytes now s hd,
    text_outcome_of_nonjson st topic s now htop hne hnj']
  exact ⟨_, rfl, rfl⟩

/-- C8 witness: payload `"not json"` is forwarded with `data == ["not json"]`. -/
theorem C8_opaque_string_fallback_witness :
    utf8Decode (asciiBytes "not json") = some "not json" ∧
      pyStrip "not json" ≠ "" ∧
      is_json (pyStrip "not json") = false ∧
      (∃ env, (on_message sampleState "status/AMT1" (asciiBytes "not json") 0).2 =
        Outcome.published env ∧ env.data = [Json.str (pyStrip "not json")]) :=
  ⟨rfl, by decide, rfl,
    C8_opaque_string_fallback sampleState "status/AMT1" (asciiBytes "not json") 0
      "not json" rfl rfl (by decide) rfl⟩

/-- C10: a message whose topic does not start with `"status/AMT"`, with a
decodable payload that is nonempty after stripping, falls through the
`startswith` test: the handler publishes nothing, raises nothing, and returns
the state unchanged. -/
theorem C10_nonmatching_topic_frame (st : ForwarderState) (topic : String)
    (bytes : List Nat) (now : Int) (s : String)
    (hd : utf8Decode bytes = some s)
    (hne : pyStrip s ≠ "")
    (htop : pyStarts topic "status/AMT" = false) :
    on_message st topic bytes now = (st, Outcome.notMatched) ∧
      (on_message st topic bytes now).1 = st ∧
      (on_message st topic bytes now).2.isPublished = false := by
  have h := text_outcome_notMatched st topic s now hne htop
  rw [on_message_eq_text st topic bytes now s hd, h]
  exact ⟨rfl, rfl, rfl⟩

/-- C10 witness: a message on the unrelated topic `"events/other"`. -/
theorem C10_nonmatching_topic_frame_witness :
    utf8Decode (asciiBytes "\x7b\"a\": 1\x7d") = some "\x7b\"a\": 1\x7d" ∧
      pyStrip "\x7b\"a\": 1\x7d" ≠ "" ∧
      pyStarts "events/other" "status/AMT" = false ∧
      on_message sampleState "events/other" (asciiBytes "\x7b\"a\": 1\x7d") 0 =
        (sampleState, Outcome.notMatched) :=
  ⟨rfl, by decide, rfl,
    (C10_nonmatching_topic_frame sampleState "events/other" (asciiBytes "\x7b\"a\": 1\x7d")
      0 "\x7b\"a\": 1\x7d" rfl (by decide) rfl).1⟩

/-- Splitting `takeWhile`/`dropWhile` over an append at a failing head. -/
theorem takeWhile_append_all (p : Char → Bool) (a b : List Char)
    (ha : ∀ c ∈ a, p c = true) (hb : headNot p b) :
    (a ++ b).takeWhile p = a ∧ (a ++ b).dropWhile p = b := by
  induction a with
  | nil =>
    cases b with
    | nil => simp
    | cons c t =>
      simp only [headNot] at hb
      simp [List.takeWhile_cons, List.dropWhile_cons, hb]
  | cons c a ih =>
    have hc : p c = true := ha c (by simp)
    have h2 := ih (fun x hx => ha x (by simp [hx]))
    simp [List.takeWhile_cons, List.dropWhile_cons, hc, h2.1, h2.2]

/-- Whitespace skipping does not move past a non-whitespace head. -/
theorem skipWs_eq_self (b : List Char) (hb : headNot jsonWs b) : skipWs b = b := by
  cases b with
  | nil => rfl
  | cons c t =>
    simp only [headNot] at hb
    simp [skipWs, List.dropWhile_cons, hb]

/-- The fuel argument of `natDigitsAux` is irrelevant once it exceeds `n`. -/
theorem natDigitsAux_congr (n : Nat) : ∀ f1 f2, n < f1 → n < f2 →
    natDigitsAux f1 n = natDigitsAux f2 n := by
  induction n using Nat.strong_induction_on with
  | _ n ih =>
    intro f1 f2 h1 h2
    obtain ⟨g1, rfl⟩ : ∃ g, f1 = g + 1 := ⟨f1 - 1, by omega⟩
    obtain ⟨g2, rfl⟩ : ∃ g, f2 = g + 1 := ⟨f2 - 1, by omega⟩
    simp only [natDigitsAux]
    by_cases h : n < 10
    · simp [h]
    · have hd : n / 10 < n := Nat.div_lt_self (by omega) (by omega)
      simp only [if_neg h]
      rw [ih (n / 10) hd g1 g2 (by omega) (by omega)]

/-- Recursion equation of `natDigits`. -/
theorem natDigits_unfold (n : Nat) : natDigits n =
    if n < 10 then [Char.ofNat (48 + n)]
    else natDigits (n / 10) ++ [Char.ofNat (48 + n % 10)] := by
  have step : natDigitsAux (n + 1) n =
      if n < 10 then [Char.ofNat (48 + n)]
      else natDigitsAux n (n / 10) ++ [Char.ofNat (48 + n % 10)] := rfl
  by_cases h : n < 10
  · simp only [natDigits, step, if_pos h]
  · have hlt : n / 10 < n := Nat.div_lt_self (by omega) (by omega)
    simp only [natDigits, step, if_neg h]
    congr 1
    exact natDigitsAux_congr (n / 10) n (n / 10 + 1) (by omega) (by omega)

/-- Code point and digit-class facts about the ten digit characters. -/
theorem digitChar_facts : ∀ r, r < 10 →
    (Char.ofNat (48 + r)).toNat = 48 + r ∧ isDigitB (Char.ofNat (48 + r)) = true := by
  decide

/-- Every character `natDigits` produces is a decimal digit. -/
theorem natDigits_all_digits (n : Nat) : ∀ c ∈ natDigits n, isDigitB c = true := by
  induction n using Nat.strong_induction_on with
  | _ n ih =>
    rw [natDigits_unfold]
    by_cases h : n < 10
    · simp only [if_pos h, List.mem_singleton]
      intro c hc
      subst hc
      exact (digitChar_facts n h).2
    · have hlt : n / 10 < n := Nat.div_lt_self (by omega) (by omega)
      simp only [if_neg h, List.mem_append, List.mem_singleton]
      intro c hc
      rcases hc with hc | hc
      · exact ih (n / 10) hlt c hc
      · subst hc
        exact (digitChar_facts (n % 10) (Nat.mod_lt n (by omega))).2

/-- The digit string of a number is never empty. -/
theorem natDigits_ne_nil (n : Nat) : natDigits n ≠ [] := by
  rw [natDigits_unfold]
  by_cases h : n < 10 <;> simp [h]

/-- A nonzero digit's character is not `'0'`. -/
theorem digitChar_ne_zero : ∀ r, r < 10 → 1 ≤ r → Char.ofNat (48 + r) ≠ '0' := by
  decide

/-- A positive number's digit string does not start with `'0'`. -/
theorem natDigits_head_ne_zero (n : Nat) : 1 ≤ n →
    ∀ c t, natDigits n = c :: t → c ≠ '0' := by
  induction n using Nat.strong_induction_on with
  | _ n ih =>
    intro hn c t heq
    rw [natDigits_unfold] at heq
    by_cases h : n < 10
    · rw [if_pos h] at heq
      cases heq
      exact digitChar_ne_zero n h hn
    · rw [if_neg h] at heq
      have hlt : n / 10 < n := Nat.div_lt_self (by omega) (by omega)
      obtain ⟨c', t', hct⟩ : ∃ c' t', natDigits (n / 10) = c' :: t' := by
        cases hnd : natDigits (n / 10) with
        | nil => exact absurd hnd (natDigits_ne_nil _)
        | cons a b => exact ⟨a, b, rfl⟩
      rw [hct] at heq
      simp only [List.cons_append, List.cons.injEq] at heq
      rw [← heq.1]
      exact ih (n / 10) hlt (by omega) c' t' hct

/-- Bound on the number of digits. -/
theorem natDigits_length_le (t : Nat) : ∀ n, n < 10 ^ t → 1 ≤ t →
    (natDigits n).length ≤ t := by
  induction t with
  | zero => omega
  | succ t ih =>
    intro n hn _
    rw [natDigits_unfold]
    by_cases h : n < 10
    · simp [h]
    · have hp : (10 : Nat) ^ (t + 1) = 10 ^ t * 10 := by ring
      have hlt : n / 10 < 10 ^ t := Nat.div_lt_of_lt_mul (by omega)
      have ht : 1 ≤ t := by
        rcases Nat.eq_zero_or_pos t with h0 | h0
        · subst h0; simp at hn; omega
        · exact h0
      simp only [if_neg h, List.length_append, List.length_singleton]
      have := ih (n / 10) hlt ht
      omega

/-- Accumulator form of `digitsVal`. -/
theorem digitsVal_foldl (b : List Char) : ∀ acc : Nat,
    b.foldl (fun a c => 10 * a + (c.toNat - 48)) acc =
      acc * 10 ^ b.length + digitsVal b := by
  induction b with
  | nil => intro acc; simp [digitsVal]
  | cons c t ih =>
    intro acc
    simp only [List.foldl_cons, digitsVal] at ih ⊢
    rw [ih (10 * acc + (c.toNat - 48)), ih (10 * 0 + (c.toNat - 48))]
    simp only [List.length_cons, pow_succ]
    ring

/-- Value of a concatenated digit string. -/
theorem digitsVal_append (a b : List Char) :
    digitsVal (a ++ b) = digitsVal a * 10 ^ b.length + digitsVal b := by
  unfold digitsVal
  rw [List.foldl_append, digitsVal_foldl]
  rfl

/-- Leading zeros do not change the value. -/
theorem digitsVal_replicate_zero (z : Nat) :
    digitsVal (List.replicate z '0') = 0 := by
  induction z with
  | zero => rfl
  | succ z ih =>
    unfold digitsVal at ih ⊢
    simp only [List.replicate_succ, List.foldl_cons]
    have : (10 * 0 + ('0'.toNat - 48)) = 0 := by decide
    rw [this, ih]

/-- Parsing the digit string of `n` recovers `n`. -/
theorem digitsVal_natDigits (n : Nat) : digitsVal (natDigits n) = n := by
  induction n using Nat.strong_induction_on with
  | _ n ih =>
    rw [natDigits_unfold]
    by_cases h : n < 10
    · rw [if_pos h]
      have hc := (digitChar_facts n h).1
      simp [digitsVal, hc]
    · have hlt : n / 10 < n := Nat.div_lt_self (by omega) (by omega)
      rw [if_neg h, digitsVal_append, ih (n / 10) hlt]
      have hc := (digitChar_facts (n % 10) (Nat.mod_lt n (by omega))).1
      simp [digitsVal, hc]
      omega

/-- Exhaustive shapes of a token boundary. -/
theorem tokenBoundary_cases (rest : List Char) (hb : tokenBoundary rest) :
    rest = [] ∨ (∃ u, rest = ',' :: u) ∨ (∃ u, rest = ']' :: u) ∨
      (∃ u, rest = '}' :: u) := by
  cases rest with
  | nil => exact Or.inl rfl
  | cons c u =>
    simp only [tokenBoundary] at hb
    rcases hb with rfl | rfl | rfl
    · exact Or.inr (Or.inl ⟨u, rfl⟩)
    · exact Or.inr (Or.inr (Or.inl ⟨u, rfl⟩))
    · exact Or.inr (Or.inr (Or.inr ⟨u, rfl⟩))

/-- A token boundary never starts with a digit. -/
theorem tokenBoundary_headNot_digit (rest : List Char) (hb : tokenBoundary rest) :
    headNot isDigitB rest := by
  rcases tokenBoundary_cases rest hb with rfl | ⟨u, rfl⟩ | ⟨u, rfl⟩ | ⟨u, rfl⟩ <;>
    simp [headNot, isDigitB]

/-- A token boundary never starts with whitespace. -/
theorem tokenBoundary_headNot_ws (rest : List Char) (hb : tokenBoundary rest) :
    headNot jsonWs rest := by
  rcases tokenBoundary_cases rest hb with rfl | ⟨u, rfl⟩ | ⟨u, rfl⟩ | ⟨u, rfl⟩ <;>
    simp [headNot, jsonWs]

/-- The sign scanner on input that does not start with `'-'`. -/
theorem parseSign_nonneg (c : Char) (t : List Char) (h : ¬ c = '-') :
    parseSign (c :: t) = (false, c :: t) := by
  unfold parseSign
  split
  · rename_i heq
    cases heq
    exact absurd rfl h
  · rfl

/-- The integer-part scanner on a canonical digit string followed by a
non-digit. -/
theorem parseIntPart_digits (ds rest : List Char)
    (hne : ds ≠ []) (hdig : ∀ c ∈ ds, isDigitB c = true)
    (hz : ∀ t, ds = '0' :: t → t = [])
    (hrest : headNot isDigitB rest) :
    parseIntPart (ds ++ rest) = some (ds, rest) := by
  obtain ⟨c, t, rfl⟩ : ∃ c t, ds = c :: t := by
    cases ds with
    | nil => exact absurd rfl hne
    | cons a b => exact ⟨a, b, rfl⟩
  have hcd : isDigitB c = true := hdig c (by simp)
  have htk := takeWhile_append_all isDigitB (c :: t) rest hdig hrest
  by_cases hc0 : c = '0'
  · subst hc0
    have ht0 : t = [] := hz t rfl
    subst ht0
    simp [parseIntPart, isDigitB]
  · simp only [List.cons_append] at htk
    simp only [List.cons_append, parseIntPart, hcd, Bool.not_eq_true, if_neg hc0]
    simp [htk.1, htk.2, hc0]

/-- No fraction starts at a token boundary. -/
theorem parseFracPart_boundary (rest : List Char) (hb : tokenBoundary rest) :
    parseFracPart rest = ([], rest) := by
  rcases tokenBoundary_cases rest hb with rfl | ⟨u, rfl⟩ | ⟨u, rfl⟩ | ⟨u, rfl⟩ <;>
    simp [parseFracPart]

/-- No exponent starts at a token boundary. -/
theorem parseExpPart_boundary (rest : List Char) (hb : tokenBoundary rest) :
    parseExpPart rest = (false, false, [], rest) := by
  rcases tokenBoundary_cases rest hb with rfl | ⟨u, rfl⟩ | ⟨u, rfl⟩ | ⟨u, rfl⟩ <;>
    simp [parseExpPart]

/-- The fraction scanner on a dot, digits and a non-digit continuation. -/
theorem parseFracPart_digits (frds rest : List Char)
    (hne : frds ≠ []) (hdig : ∀ c ∈ frds, isDigitB c = true)
    (hrest : headNot isDigitB rest) :
    parseFracPart ('.' :: (frds ++ rest)) = (frds, rest) := by
  have htk := takeWhile_append_all isDigitB frds rest hdig hrest
  obtain ⟨a, b, rfl⟩ : ∃ a b, frds = a :: b := by
    cases frds with
    | nil => exact absurd rfl hne
    | cons a b => exact ⟨a, b, rfl⟩
  simp only [List.cons_append] at htk
  simp only [List.cons_append, parseFracPart, htk.1, htk.2]
  simp

/-- The number scanner on a signed canonical digit string followed by a
boundary: an integer literal produces the corresponding Python `int`. -/
theorem parseNumber_digits (neg : Bool) (ds rest : List Char)
    (hne : ds ≠ []) (hdig : ∀ c ∈ ds, isDigitB c = true)
    (hz : ∀ t, ds = '0' :: t → t = [])
    (hb : tokenBoundary rest) :
    parseNumber ((if neg then ['-'] else []) ++ ds ++ rest) =
      some (.int (if neg then -(Int.ofNat (digitsVal ds))
        else Int.ofNat (digitsVal ds)), rest) := by
  have hip := parseIntPart_digits ds rest hne hdig hz
    (tokenBoundary_headNot_digit rest hb)
  have hfr := parseFracPart_boundary rest hb
  have hex := parseExpPart_boundary rest hb
  obtain ⟨c, t, rfl⟩ : ∃ c t, ds = c :: t := by
    cases ds with
    | nil => exact absurd rfl hne
    | cons a b => exact ⟨a, b, rfl⟩
  have hcd : isDigitB c = true := hdig c (by simp)
  have hcm : ¬ c = '-' := by
    intro h
    subst h
    simp [isDigitB] at hcd
  simp only [List.cons_append] at hip
  cases neg
  · have hsign := parseSign_nonneg c (t ++ rest) hcm
    simp [parseNumber, hsign, hip, hfr, hex]
  · have hsign : parseSign ('-' :: (c :: (t ++ rest))) = (true, c :: (t ++ rest)) := rfl
    simp [parseNumber, hsign, hip, hfr, hex]

/-- A digit string from `natDigits` starting with `'0'` is exactly `"0"`. -/
theorem natDigits_zero_head (k : Nat) : ∀ t, natDigits k = '0' :: t → t = [] := by
  intro t ht
  rcases Nat.eq_zero_or_pos k with rfl | hk
  · have h0 : natDigits 0 = ['0'] := by
      rw [natDigits_unfold]
      decide
    rw [h0] at ht
    exact (List.cons.inj ht).2.symm
  · exact absurd rfl (natDigits_head_ne_zero k hk '0' t ht)

/-- The number scanner recovers a dumped Python `int`. -/
theorem parseNumber_intChars (n : Int) (rest : List Char) (hb : tokenBoundary rest) :
    parseNumber (intChars n ++ rest) = some (.int n, rest) := by
  by_cases hn : n < 0
  · have hmain := parseNumber_digits true (natDigits n.natAbs) rest
      (natDigits_ne_nil _) (natDigits_all_digits _) (natDigits_zero_head _) hb
    rw [digitsVal_natDigits] at hmain
    have hic : intChars n ++ rest =
        (if true then ['-'] else []) ++ natDigits n.natAbs ++ rest := by
      simp [intChars, hn]
    rw [hic, hmain]
    have habs : (Int.ofNat n.natAbs : Int) = -n :=
      Int.ofNat_natAbs_of_nonpos (le_of_lt hn)
    rw [if_pos (show (true = true) from rfl), habs, neg_neg]
  · have hmain := parseNumber_digits false (natDigits n.natAbs) rest
      (natDigits_ne_nil _) (natDigits_all_digits _) (natDigits_zero_head _) hb
    rw [digitsVal_natDigits] at hmain
    have hic : intChars n ++ rest =
        (if false then ['-'] else []) ++ natDigits n.natAbs ++ rest := by
      simp [intChars, hn]
    rw [hic, hmain]
    have habs : (Int.ofNat n.natAbs : Int) = n :=
      Int.natAbs_of_nonneg (not_lt.mp hn)
    rw [if_neg (show ¬ (false = true) by decide), habs]

/-- The number scanner recovers a dumped float (exact decimal). -/
theorem parseNumber_floatChars (neg : Bool) (m e : Nat) (rest : List Char)
    (hb : tokenBoundary rest) :
    parseNumber (floatChars neg m e ++ rest) = some (.float neg m e, rest) := by
  have hfvlt : m % 10 ^ (e + 1) < 10 ^ (e + 1) :=
    Nat.mod_lt m (Nat.pos_pow_of_pos _ (by omega))
  have hlen : (natDigits (m % 10 ^ (e + 1))).length ≤ e + 1 :=
    natDigits_length_le (e + 1) _ hfvlt (by omega)
  set w := e + 1 with hwdef
  set ip := m / 10 ^ w with hipdef
  set fv := m % 10 ^ w with hfvdef
  set pad := List.replicate (w - (natDigits fv).length) '0' with hpaddef
  set frds := pad ++ natDigits fv with hfrdsdef
  have hfne : frds ≠ [] := by
    simp only [hfrdsdef]
    intro hx
    exact natDigits_ne_nil fv (List.append_eq_nil.mp hx).2
  have hfdig : ∀ c ∈ frds, isDigitB c = true := by
    intro c hc
    rcases List.mem_append.mp hc with hc | hc
    · have : c = '0' := List.eq_of_mem_replicate hc
      subst this
      decide
    · exact natDigits_all_digits fv c hc
  have hflen : frds.length = w := by
    simp only [hfrdsdef, List.length_append, hpaddef, List.length_replicate]
    omega
  have hfval : digitsVal frds = fv := by
    rw [hfrdsdef, digitsVal_append, hpaddef, digitsVal_replicate_zero,
      digitsVal_natDigits]
    ring
  have hdotnd : headNot isDigitB ('.' :: (frds ++ rest)) := by
    simp [headNot, isDigitB]
  have hip2 := parseIntPart_digits (natDigits ip) ('.' :: (frds ++ rest))
    (natDigits_ne_nil _) (natDigits_all_digits _) (natDigits_zero_head _) hdotnd
  have hfr2 := parseFracPart_digits frds rest hfne hfdig
    (tokenBoundary_headNot_digit rest hb)
  have hex2 := parseExpPart_boundary rest hb
  have hshape : floatChars neg m e ++ rest =
      (if neg then ['-'] else []) ++ (natDigits ip ++ ('.' :: (frds ++ rest))) := by
    simp [floatChars, hipdef, hfvdef, hfrdsdef, hpaddef, hwdef]
  rw [hshape]
  have hdval : digitsVal (natDigits ip ++ frds) = m := by
    rw [digitsVal_append, digitsVal_natDigits, hfval, hflen, hipdef, hfvdef,
      Nat.mul_comm]
    exact Nat.div_add_mod m (10 ^ w)
  obtain ⟨c, t, hct⟩ : ∃ c t, natDigits ip = c :: t := by
    cases hnd : natDigits ip with
    | nil => exact absurd hnd (natDigits_ne_nil _)
    | cons a b => exact ⟨a, b, rfl⟩
  have hcd : isDigitB c = true := natDigits_all_digits ip c (by rw [hct]; simp)
  have hcm : ¬ c = '-' := by
    intro h
    subst h
    simp [isDigitB] at hcd
  have hscale : ¬ ((frds.length : Int) ≤ 0) := by
    rw [hflen]
    omega
  have htn : (((frds.length : Int)) - 1).toNat = e := by
    rw [hflen]
    omega
  cases neg
  · have hsign : parseSign (natDigits ip ++ ('.' :: (frds ++ rest))) =
        (false, natDigits ip ++ ('.' :: (frds ++ rest))) := by
      rw [hct, List.cons_append]
      exact parseSign_nonneg c (t ++ ('.' :: (frds ++ rest))) hcm
    simp [parseNumber, hsign, hip2, hfr2, hex2, hfne, hdval, hscale, htn]
  · have hsign : parseSign ('-' :: (natDigits ip ++ ('.' :: (frds ++ rest)))) =
        (true, natDigits ip ++ ('.' :: (frds ++ rest))) := rfl
    simp [parseNumber, hsign, hip2, hfr2, hex2, hfne, hdval, hscale, htn]

/-- Reading a hex digit back gives the value it encodes. -/
theorem hexVal_hexDigitChar : ∀ x, x < 16 → hexVal (hexDigitChar x) = some x := by
  decide

/-- Recoding a character's code point recovers the character. -/
theorem charOfNat_toNat (c : Char) : Char.ofNat c.toNat = c := by
  have hv : Nat.isValidChar c.toNat := c.valid
  unfold Char.ofNat
  rw [dif_pos hv]
  unfold Char.ofNatAux
  apply Char.ext
  apply UInt32.ext
  simp [Char.toNat, UInt32.toNat]

/-- The string scanner undoes `encodeChar` escaping, given enough fuel. -/
theorem scanStringAux_encode (cs : List Char) : ∀ (fuel : Nat) (rest : List Char),
    (cs.foldr (fun c acc => encodeChar c ++ acc) ['"']).length ≤ fuel →
    scanStringAux fuel (cs.foldr (fun c acc => encodeChar c ++ acc) ['"'] ++ rest) =
      some (cs, rest) := by
  induction cs with
  | nil =>
    intro fuel rest hf
    simp only [List.foldr_nil, List.length_singleton] at hf
    obtain ⟨f, rfl⟩ : ∃ f, fuel = f + 1 := ⟨fuel - 1, by omega⟩
    simp [scanStringAux]
  | cons c cs ih =>
    intro fuel rest hf
    simp only [List.foldr_cons, List.length_append, List.append_assoc] at hf ⊢
    have hel : 1 ≤ (encodeChar c).length := by
      unfold encodeChar
      split_ifs <;> simp
    obtain ⟨f, rfl⟩ : ∃ f, fuel = f + 1 := ⟨fuel - 1, by omega⟩
    by_cases h1 : c = '"'
    · subst h1
      have he : encodeChar '"' = ['\\', '"'] := by decide
      rw [he] at hf ⊢
      simp only [List.length_cons] at hf
      simp [scanStringAux, shortEscape, ih f rest (by omega)]
    · by_cases h2 : c = '\\'
      · subst h2
        have he : encodeChar '\\' = ['\\', '\\'] := by decide
        rw [he] at hf ⊢
        simp only [List.length_cons] at hf
        simp [scanStringAux, shortEscape, ih f rest (by omega)]
      · by_cases h3 : c = '\x08'
        · subst h3
          have he : encodeChar '\x08' = ['\\', 'b'] := by decide
          rw [he] at hf ⊢
          simp only [List.length_cons] at hf
          simp [scanStringAux, shortEscape, ih f rest (by omega)]
        · by_cases h4 : c = '\x0c'
          · subst h4
            have he : encodeChar '\x0c' = ['\\', 'f'] := by decide
            rw [he] at hf ⊢
            simp only [List.length_cons] at hf
            simp [scanStringAux, shortEscape, ih f rest (by omega)]
          · by_cases h5 : c = '\n'
            · subst h5
              have he : encodeChar '\n' = ['\\', 'n'] := by decide
              rw [he] at hf ⊢
              simp only [List.length_cons] at hf
              simp [scanStringAux, shortEscape, ih f rest (by omega)]
            · by_cases h6 : c = '\r'
              · subst h6
                have he : encodeChar '\r' = ['\\', 'r'] := by decide
                rw [he] at hf ⊢
                simp only [List.length_cons] at hf
                simp [scanStringAux, shortEscape, ih f rest (by omega)]
              · by_cases h7 : c = '\t'
                · subst h7
                  have he : encodeChar '\t' = ['\\', 't'] := by decide
                  rw [he] at hf ⊢
                  simp only [List.length_cons] at hf
                  simp [scanStringAux, shortEscape, ih f rest (by omega)]
                · by_cases h8 : c.toNat < 0x20
                  · have he : encodeChar c = ['\\', 'u', '0', '0',
                        hexDigitChar (c.toNat / 16), hexDigitChar (c.toNat % 16)] := by
                      unfold encodeChar
                      rw [if_neg h1, if_neg h2, if_neg h3, if_neg h4, if_neg h5,
                        if_neg h6, if_neg h7, if_pos h8]
                    rw [he] at hf ⊢
                    simp only [List.length_cons] at hf
                    have e0 : hexVal '0' = some 0 := by decide
                    have e1 : hexVal (hexDigitChar (c.toNat / 16)) =
                        some (c.toNat / 16) := hexVal_hexDigitChar _ (by omega)
                    have e2 : hexVal (hexDigitChar (c.toNat % 16)) =
                        some (c.toNat % 16) := hexVal_hexDigitChar _ (by omega)
                    have hval : c.toNat / 16 * 16 + c.toNat % 16 = c.toNat := by
                      omega
                    simp [scanStringAux, hex4, e0, e1, e2, hval,
                      show ¬ (55296 ≤ c.toNat) by omega,
                      show ¬ (56320 ≤ c.toNat) by omega,
                      charOfNat_toNat, ih f rest (by omega)]
                  · have he : encodeChar c = [c] := by
                      unfold encodeChar
                      rw [if_neg h1, if_neg h2, if_neg h3, if_neg h4, if_neg h5,
                        if_neg h6, if_neg h7, if_neg h8]
                    rw [he] at hf ⊢
                    simp only [List.length_singleton] at hf
                    simp [scanStringAux, h1, h2, h8, ih f rest (by omega)]

/-- The string scanner undoes the dump of a string body. -/
theorem scanString_encode (cs rest : List Char) :
    scanString ((cs.foldr (fun c acc => encodeChar c ++ acc) ['"']) ++ rest) =
      some (cs, rest) := by
  unfold scanString
  exact scanStringAux_encode cs _ rest (by simp)

/-- Unfolding: printed `null`. -/
theorem printJson_null : printJson .null = ['n', 'u', 'l', 'l'] := by
  simp [printJson]

/-- Unfolding: printed booleans. -/
theorem printJson_bool (b : Bool) :
    printJson (.bool b) = if b then ['t', 'r', 'u', 'e'] else ['f', 'a', 'l', 's', 'e'] := by
  cases b <;> simp [printJson]

/-- Unfolding: printed ints. -/
theorem printJson_int (n : Int) : printJson (.int n) = intChars n := by
  simp [printJson]

/-- Unfolding: printed floats. -/
theorem printJson_float (neg : Bool) (m e : Nat) :
    printJson (.float neg m e) = floatChars neg m e := by
  simp [printJson]

/-- Unfolding: printed strings. -/
theorem printJson_str (s : String) : printJson (.str s) = encodeStr s.data := by
  simp [printJson]

/-- Unfolding: printed empty array. -/
theorem printJson_arr_nil : printJson (.arr []) = ['[', ']'] := by
  simp [printJson]

/-- Unfolding: printed nonempty array. -/
theorem printJson_arr_cons (x : Json) (xs : List Json) :
    printJson (.arr (x :: xs)) = '[' :: (printJson x ++ printItems xs) ++ [']'] := by
  simp [printJson]

/-- Unfolding: printed empty object. -/
theorem printJson_obj_nil : printJson (.obj []) = ['{', '}'] := by
  simp [printJson]

/-- Unfolding: printed nonempty object. -/
theorem printJson_obj_cons (p : String × Json) (ps : List (String × Json)) :
    printJson (.obj (p :: ps)) =
      '{' :: (encodeStr p.1.data ++ ':' :: ' ' :: printJson p.2 ++ printMembers ps) ++
        ['}'] := by
  simp [printJson]

/-- Unfolding: separators before the remaining array elements. -/
theorem printItems_cons (x : Json) (xs : List Json) :
    printItems (x :: xs) = ',' :: ' ' :: (printJson x ++ printItems xs) := by
  simp [printItems]

/-- Unfolding: separators before the remaining object members. -/
theorem printMembers_cons (p : String × Json) (ps : List (String × Json)) :
    printMembers (p :: ps) =
      ',' :: ' ' :: (encodeStr p.1.data ++ ':' :: ' ' :: printJson p.2 ++ printMembers ps) := by
  simp [printMembers]

/-- A decimal digit is not whitespace, a closer, or a scanner dispatch
character. -/
theorem digit_head_facts (c : Char) (h : isDigitB c = true) :
    jsonWs c = false ∧ c ≠ ']' ∧ c ≠ '}' := by
  simp only [isDigitB, Bool.and_eq_true, decide_eq_true_eq] at h
  refine ⟨?_, ?_, ?_⟩
  · simp only [jsonWs, Bool.or_eq_false_iff, decide_eq_false_iff_not]
    refine ⟨⟨⟨?_, ?_⟩, ?_⟩, ?_⟩ <;> (intro h1; subst h1; exact absurd h (by decide))
  · intro h1; subst h1; exact absurd h (by decide)
  · intro h1; subst h1; exact absurd h (by decide)

/-- A number head (`'-'` or a digit) misses every other dispatch branch of the
value scanner. -/
theorem numHead_facts (c : Char) (h : c = '-' ∨ isDigitB c = true) :
    ¬ c = '"' ∧ ¬ c = '{' ∧ ¬ c = '[' ∧ ¬ c = 'n' ∧ ¬ c = 't' ∧ ¬ c = 'f' ∧
      (c = '-' || isDigitB c) = true := by
  rcases h with rfl | h
  · refine ⟨by decide, by decide, by decide, by decide, by decide, by decide, by decide⟩
  · have h' := h
    simp only [isDigitB, Bool.and_eq_true, decide_eq_true_eq] at h'
    refine ⟨?_, ?_, ?_, ?_, ?_, ?_, by simp [h]⟩ <;>
      (intro h1; subst h1; exact absurd h' (by decide))

/-- Every printed value starts with a character that is not whitespace and not
a closing bracket. -/
theorem printJson_head_facts (j : Json) :
    ∃ c t, printJson j = c :: t ∧ jsonWs c = false ∧ c ≠ ']' ∧ c ≠ '}' := by
  cases j with
  | null => exact ⟨'n', _, printJson_null, by decide, by decide, by decide⟩
  | bool b =>
    cases b
    · exact ⟨'f', _, by rw [printJson_bool]; rfl, by decide, by decide, by decide⟩
    · exact ⟨'t', _, by rw [printJson_bool]; rfl, by decide, by decide, by decide⟩
  | int n =>
    rw [printJson_int]
    by_cases hn : n < 0
    · exact ⟨'-', natDigits n.natAbs, by simp [intChars, hn], by decide, by decide,
        by decide⟩
    · obtain ⟨c, t, hct⟩ : ∃ c t, natDigits n.natAbs = c :: t := by
        cases hnd : natDigits n.natAbs with
        | nil => exact absurd hnd (natDigits_ne_nil _)
        | cons a b => exact ⟨a, b, rfl⟩
      have hd := digit_head_facts c (natDigits_all_digits _ c (by rw [hct]; simp))
      exact ⟨c, t, by simp [intChars, hn, hct], hd.1, hd.2.1, hd.2.2⟩
  | float neg m e =>
    rw [printJson_float]
    cases neg
    · obtain ⟨c, t, hct⟩ : ∃ c t, natDigits (m / 10 ^ (e + 1)) = c :: t := by
        cases hnd : natDigits (m / 10 ^ (e + 1)) with
        | nil => exact absurd hnd (natDigits_ne_nil _)
        | cons a b => exact ⟨a, b, rfl⟩
      have hd := digit_head_facts c (natDigits_all_digits _ c (by rw [hct]; simp))
      refine ⟨c, t ++
        '.' :: (List.replicate (e + 1 - (natDigits (m % 10 ^ (e + 1))).length) '0' ++
          natDigits (m % 10 ^ (e + 1))), ?_, hd.1, hd.2.1, hd.2.2⟩
      simp [floatChars, hct]
    · refine ⟨'-', natDigits (m / 10 ^ (e + 1)) ++
        '.' :: (List.replicate (e + 1 - (natDigits (m % 10 ^ (e + 1))).length) '0' ++
          natDigits (m % 10 ^ (e + 1))), ?_, by decide, by decide, by decide⟩
      simp [floatChars]
  | str s => exact ⟨'"', _, by rw [printJson_str]; rfl, by decide, by decide, by decide⟩
  | arr l =>
    cases l with
    | nil => exact ⟨'[', _, printJson_arr_nil, by decide, by decide, by decide⟩
    | cons x xs => exact ⟨'[', _, printJson_arr_cons x xs, by decide, by decide, by decide⟩
  | obj m =>
    cases m with
    | nil => exact ⟨'{', _, printJson_obj_nil, by decide, by decide, by decide⟩
    | cons p ps => exact ⟨'{', _, printJson_obj_cons p ps, by decide, by decide, by decide⟩

/-- Whitespace skipping is the identity on a printed value and what follows. -/
theorem skipWs_printJson (j : Json) (rest : List Char) :
    skipWs (printJson j ++ rest) = printJson j ++ rest := by
  obtain ⟨c, t, hct, hws, _, _⟩ := printJson_head_facts j
  rw [hct]
  exact skipWs_eq_self _ (by simp [headNot, hws])

/-- A printed value is never empty. -/
theorem printJson_length_pos (j : Json) : 1 ≤ (printJson j).length := by
  obtain ⟨c, t, hct, _, _, _⟩ := printJson_head_facts j
  rw [hct]
  simp

/-- The scanner recovers a dumped `null`. -/
theorem parsesBack_null : ParsesBack .null := by
  intro rest fuel hb hf
  rw [printJson_null] at hf ⊢
  obtain ⟨f, rfl⟩ : ∃ f, fuel = f + 1 := ⟨fuel - 1, by simp at hf; omega⟩
  simp [parseVal]

/-- The scanner recovers a dumped boolean. -/
theorem parsesBack_bool (b : Bool) : ParsesBack (.bool b) := by
  intro rest fuel hb hf
  rw [printJson_bool] at hf ⊢
  obtain ⟨f, rfl⟩ : ∃ f, fuel = f + 1 := ⟨fuel - 1, by cases b <;> (simp at hf; omega)⟩
  cases b <;> simp [parseVal]

/-- The scanner recovers a dumped string. -/
theorem parsesBack_str (s : String) : ParsesBack (.str s) := by
  intro rest fuel hb hf
  rw [printJson_str] at hf ⊢
  have hlen : 1 ≤ (encodeStr s.data).length := by
    unfold encodeStr
    simp
  obtain ⟨f, rfl⟩ : ∃ f, fuel = f + 1 := ⟨fuel - 1, by omega⟩
  have hes : encodeStr s.data =
      '"' :: (s.data.foldr (fun c acc => encodeChar c ++ acc) ['"']) := rfl
  have hms : String.mk s.data = s := rfl
  rw [hes]
  simp [parseVal, scanString_encode, hms]

/-- The scanner recovers a dumped int. -/
theorem parsesBack_int (n : Int) : ParsesBack (.int n) := by
  intro rest fuel hb hf
  rw [printJson_int] at hf ⊢
  obtain ⟨c, t, hct, hnum⟩ :
      ∃ c t, intChars n = c :: t ∧ (c = '-' ∨ isDigitB c = true) := by
    by_cases hn : n < 0
    · exact ⟨'-', natDigits n.natAbs, by simp [intChars, hn], Or.inl rfl⟩
    · obtain ⟨c, t, hct⟩ : ∃ c t, natDigits n.natAbs = c :: t := by
        cases hnd : natDigits n.natAbs with
        | nil => exact absurd hnd (natDigits_ne_nil _)
        | cons a b => exact ⟨a, b, rfl⟩
      exact ⟨c, t, by simp [intChars, hn, hct],
        Or.inr (natDigits_all_digits _ c (by rw [hct]; simp))⟩
  have hnf := numHead_facts c hnum
  rw [hct] at hf
  obtain ⟨f, rfl⟩ : ∃ f, fuel = f + 1 := ⟨fuel - 1, by simp at hf; omega⟩
  rw [hct]
  simp only [parseVal, List.cons_append]
  rw [if_neg hnf.1, if_neg hnf.2.1, if_neg hnf.2.2.1, if_neg hnf.2.2.2.1,
    if_neg hnf.2.2.2.2.1, if_neg hnf.2.2.2.2.2.1, if_pos hnf.2.2.2.2.2.2,
    ← List.cons_append, ← hct]
  exact parseNumber_intChars n rest hb

/-- The scanner recovers a dumped float. -/
theorem parsesBack_float (neg : Bool) (m e : Nat) : ParsesBack (.float neg m e) := by
  intro rest fuel hb hf
  rw [printJson_float] at hf ⊢
  obtain ⟨c, t, hct, hnum⟩ :
      ∃ c t, floatChars neg m e = c :: t ∧ (c = '-' ∨ isDigitB c = true) := by
    cases neg
    · obtain ⟨c, t, hct⟩ : ∃ c t, natDigits (m / 10 ^ (e + 1)) = c :: t := by
        cases hnd : natDigits (m / 10 ^ (e + 1)) with
        | nil => exact absurd hnd (natDigits_ne_nil _)
        | cons a b => exact ⟨a, b, rfl⟩
      refine ⟨c, t ++
        '.' :: (List.replicate (e + 1 - (natDigits (m % 10 ^ (e + 1))).length) '0' ++
          natDigits (m % 10 ^ (e + 1))), ?_,
        Or.inr (natDigits_all_digits _ c (by rw [hct]; simp))⟩
      simp [floatChars, hct]
    · refine ⟨'-', natDigits (m / 10 ^ (e + 1)) ++
        '.' :: (List.replicate (e + 1 - (natDigits (m % 10 ^ (e + 1))).length) '0' ++
          natDigits (m % 10 ^ (e + 1))), ?_, Or.inl rfl⟩
      simp [floatChars]
  have hnf := numHead_facts c hnum
  rw [hct] at hf
  obtain ⟨f, rfl⟩ : ∃ f, fuel = f + 1 := ⟨fuel - 1, by simp at hf; omega⟩
  rw [hct]
  simp only [parseVal, List.cons_append]
  rw [if_neg hnf.1, if_neg hnf.2.1, if_neg hnf.2.2.1, if_neg hnf.2.2.2.1,
    if_neg hnf.2.2.2.2.1, if_neg hnf.2.2.2.2.2.1, if_pos hnf.2.2.2.2.2.2,
    ← List.cons_append, ← hct]
  exact parseNumber_floatChars neg m e rest hb

/-- Unfolding: no separators after the last element. -/
theorem printItems_nil : printItems [] = [] := by
  simp [printItems]

/-- Unfolding: no separators after the last member. -/
theorem printMembers_nil : printMembers [] = [] := by
  simp [printMembers]

/-- Whitespace skipping drops the one space of a printed `", "` separator. -/
theorem skipWs_space (z : List Char) : skipWs (' ' :: z) = skipWs z := by
  simp [skipWs, List.dropWhile_cons, jsonWs]

/-- The element loop of the array scanner undoes a printed element list. -/
theorem parseArrItems_encode (xs : List Json) :
    ∀ (x : Json), ParsesBack x → (∀ y ∈ xs, ParsesBack y) →
    ∀ (acc : List Json) (s rest : List Char) (fuel : Nat),
      skipWs s = printJson x ++ (printItems xs ++ ']' :: rest) →
      tokenBoundary rest →
      3 + 2 * ((printJson x).length + (printItems xs).length) ≤ fuel →
      parseArrItems fuel s acc = some (.arr (acc ++ x :: xs), rest) := by
  induction xs with
  | nil =>
    intro x hx _ acc s rest fuel hs hb hf
    rw [printItems_nil] at hs hf
    obtain ⟨f, rfl⟩ : ∃ f, fuel = f + 1 := ⟨fuel - 1, by omega⟩
    simp only [List.nil_append] at hs
    have hx1 := hx (']' :: rest) f (by simp [tokenBoundary]) (by simp at hf; omega)
    have hsk : skipWs (']' :: rest) = ']' :: rest :=
      skipWs_eq_self _ (by simp [headNot, jsonWs])
    simp only [parseArrItems, hs, hx1, hsk]
  | cons y ys ih =>
    intro x hx hys acc s rest fuel hs hb hf
    rw [printItems_cons] at hs hf
    obtain ⟨f, rfl⟩ : ∃ f, fuel = f + 1 := ⟨fuel - 1, by omega⟩
    have hs' : skipWs s = printJson x ++
        (',' :: ' ' :: (printJson y ++ (printItems ys ++ ']' :: rest))) := by
      rw [hs]
      simp [List.append_assoc]
    have hx1 := hx (',' :: ' ' :: (printJson y ++ (printItems ys ++ ']' :: rest))) f
      (by simp [tokenBoundary]) (by simp at hf ⊢; omega)
    have hsk : skipWs (',' :: ' ' :: (printJson y ++ (printItems ys ++ ']' :: rest))) =
        ',' :: ' ' :: (printJson y ++ (printItems ys ++ ']' :: rest)) :=
      skipWs_eq_self _ (by simp [headNot, jsonWs])
    have hrec := ih y (hys y (by simp)) (fun z hz => hys z (by simp [hz]))
      (acc ++ [x]) (' ' :: (printJson y ++ (printItems ys ++ ']' :: rest))) rest f
      (by rw [skipWs_space]
          exact skipWs_printJson y (printItems ys ++ ']' :: rest))
      hb
      (by simp at hf ⊢; omega)
    simp only [parseArrItems, hs', hx1, hsk, hrec]
    simp

/-- Inserting a fresh key into a dict appends it. -/
theorem dictInsert_append (acc : List (String × Json)) (k : String) (v : Json)
    (h : ∀ q ∈ acc, q.1 ≠ k) :
    dictInsert acc k v = acc ++ [(k, v)] := by
  have hc : acc.any (fun p => p.1 = k) = false := by
    rw [List.any_eq_false]
    intro q hq
    simp [h q hq]
  unfold dictInsert
  rw [hc]
  simp

/-- A printed member list followed by the closer starts at a separator or the
closer: a token boundary. -/
theorem printMembers_boundary (ps : List (String × Json)) (rest : List Char) :
    tokenBoundary (printMembers ps ++ '}' :: rest) := by
  cases ps with
  | nil => rw [printMembers_nil]; simp [tokenBoundary]
  | cons q qs => rw [printMembers_cons]; simp [tokenBoundary]

/-- A printed element list followed by the closer is a token boundary. -/
theorem printItems_boundary (xs : List Json) (rest : List Char) :
    tokenBoundary (printItems xs ++ ']' :: rest) := by
  cases xs with
  | nil => rw [printItems_nil]; simp [tokenBoundary]
  | cons y ys => rw [printItems_cons]; simp [tokenBoundary]

/-- The member loop of the object scanner undoes a printed member list,
rebuilding the same members through `dictInsert` when all keys are distinct. -/
theorem parseObjItems_encode (ps : List (String × Json)) :
    ∀ (p : String × Json), ParsesBack p.2 → (∀ q ∈ ps, ParsesBack q.2) →
    ∀ (acc : List (String × Json)) (s rest : List Char) (fuel : Nat),
      skipWs s = encodeStr p.1.data ++
        ':' :: ' ' :: (printJson p.2 ++ (printMembers ps ++ '}' :: rest)) →
      tokenBoundary rest →
      (acc.map Prod.fst ++ p.1 :: ps.map Prod.fst).Nodup →
      3 + 2 * ((encodeStr p.1.data).length + (printJson p.2).length +
        (printMembers ps).length) ≤ fuel →
      parseObjItems fuel s acc = some (.obj (acc ++ p :: ps), rest) := by
  induction ps with
  | nil =>
    intro p hp _ acc s rest fuel hs hb hnd hf
    rw [printMembers_nil] at hs hf
    obtain ⟨f, rfl⟩ : ∃ f, fuel = f + 1 := ⟨fuel - 1, by omega⟩
    have hes : encodeStr p.1.data =
        '"' :: (p.1.data.foldr (fun c acc => encodeChar c ++ acc) ['"']) := rfl
    have hs' : skipWs s = '"' :: (p.1.data.foldr (fun c acc => encodeChar c ++ acc) ['"'] ++
        (':' :: ' ' :: (printJson p.2 ++ ('}' :: rest)))) := by
      rw [hs, hes]
      simp
    have hscan := scanString_encode p.1.data
      (':' :: ' ' :: (printJson p.2 ++ ('}' :: rest)))
    have hsk1 : skipWs (':' :: ' ' :: (printJson p.2 ++ ('}' :: rest))) =
        ':' :: ' ' :: (printJson p.2 ++ ('}' :: rest)) :=
      skipWs_eq_self _ (by simp [headNot, jsonWs])
    have hval := hp ('}' :: rest) f (by simp [tokenBoundary])
      (by simp at hf; omega)
    have hsk2 : skipWs (' ' :: (printJson p.2 ++ ('}' :: rest))) =
        printJson p.2 ++ ('}' :: rest) := by
      rw [skipWs_space]
      exact skipWs_printJson p.2 ('}' :: rest)
    have hkey : ∀ q ∈ acc, q.1 ≠ p.1 := by
      intro q hq hqk
      rw [List.nodup_append] at hnd
      exact hnd.2.2 (List.mem_map_of_mem Prod.fst hq) (by rw [hqk]; simp)
    have hmk : String.mk p.1.data = p.1 := rfl
    have hins := dictInsert_append acc p.1 p.2 hkey
    have hsk3 : skipWs ('}' :: rest) = '}' :: rest :=
      skipWs_eq_self _ (by simp [headNot, jsonWs])
    simp only [parseObjItems, hs', hscan, hsk1, hsk2, hval, hmk, hins, hsk3]
  | cons q qs ih =>
    intro p hp hqs acc s rest fuel hs hb hnd hf
    rw [printMembers_cons] at hs hf
    obtain ⟨f, rfl⟩ : ∃ f, fuel = f + 1 := ⟨fuel - 1, by omega⟩
    have hes : encodeStr p.1.data =
        '"' :: (p.1.data.foldr (fun c acc => encodeChar c ++ acc) ['"']) := rfl
    have htail : (',' :: ' ' ::
        (encodeStr q.1.data ++ ':' :: ' ' :: printJson q.2 ++ printMembers qs)) ++
          '}' :: rest = ',' :: ' ' :: (encodeStr q.1.data ++
            ':' :: ' ' :: (printJson q.2 ++ (printMembers qs ++ '}' :: rest))) := by
      simp [List.append_assoc]
    have hs' : skipWs s = '"' :: (p.1.data.foldr (fun c acc => encodeChar c ++ acc) ['"'] ++
        (':' :: ' ' :: (printJson p.2 ++ (',' :: ' ' :: (encodeStr q.1.data ++
          ':' :: ' ' :: (printJson q.2 ++ (printMembers qs ++ '}' :: rest))))))) := by
      rw [hs, hes]
      simp [List.append_assoc]
    have hscan := scanString_encode p.1.data
      (':' :: ' ' :: (printJson p.2 ++ (',' :: ' ' :: (encodeStr q.1.data ++
        ':' :: ' ' :: (printJson q.2 ++ (printMembers qs ++ '}' :: rest))))))
    have hsk1 : ∀ z : List Char, skipWs (':' :: ' ' :: z) = ':' :: ' ' :: z :=
      fun z => skipWs_eq_self _ (by simp [headNot, jsonWs])
    have hval := hp (',' :: ' ' :: (encodeStr q.1.data ++
        ':' :: ' ' :: (printJson q.2 ++ (printMembers qs ++ '}' :: rest)))) f
      (by simp [tokenBoundary]) (by simp at hf ⊢; omega)
    have hsk2 : skipWs (' ' :: (printJson p.2 ++ (',' :: ' ' :: (encodeStr q.1.data ++
        ':' :: ' ' :: (printJson q.2 ++ (printMembers qs ++ '}' :: rest))))))  =
        printJson p.2 ++ (',' :: ' ' :: (encodeStr q.1.data ++
          ':' :: ' ' :: (printJson q.2 ++ (printMembers qs ++ '}' :: rest)))) := by
      rw [skipWs_space]
      exact skipWs_printJson p.2 _
    have hkey : ∀ r ∈ acc, r.1 ≠ p.1 := by
      intro r hr hrk
      rw [List.nodup_append] at hnd
      exact hnd.2.2 (List.mem_map_of_mem Prod.fst hr) (by rw [hrk]; simp)
    have hmk : String.mk p.1.data = p.1 := rfl
    have hins := dictInsert_append acc p.1 p.2 hkey
    have hsk3 : skipWs (',' :: ' ' :: (encodeStr q.1.data ++
        ':' :: ' ' :: (printJson q.2 ++ (printMembers qs ++ '}' :: rest)))) =
        ',' :: ' ' :: (encodeStr q.1.data ++
          ':' :: ' ' :: (printJson q.2 ++ (printMembers qs ++ '}' :: rest))) :=
      skipWs_eq_self _ (by simp [headNot, jsonWs])
    have hesq : encodeStr q.1.data =
        '"' :: (q.1.data.foldr (fun c acc => encodeChar c ++ acc) ['"']) := rfl
    have hrec := ih q (hqs q (by simp)) (fun r hr => hqs r (by simp [hr]))
      (acc ++ [p]) (' ' :: (encodeStr q.1.data ++
        ':' :: ' ' :: (printJson q.2 ++ (printMembers qs ++ '}' :: rest)))) rest f
      (by rw [skipWs_space]
          rw [hesq]
          rw [List.cons_append]
          exact skipWs_eq_self _ (by simp [headNot, jsonWs]))
      hb
      (by simp only [List.map_append, List.map_cons, List.map_nil] at hnd ⊢
          have : acc.map Prod.fst ++ [p.1] ++ q.1 :: qs.map Prod.fst =
              acc.map Prod.fst ++ p.1 :: q.1 :: qs.map Prod.fst := by
            simp
          rw [this]
          exact hnd)
      (by simp at hf ⊢; omega)
    simp only [parseObjItems, hs', hscan, hsk1, hval, hmk, hins, hsk2, hsk3, hrec]
    simp

/-- Every well-formed value is recovered by the scanner from its own dump. -/
theorem printJson_parsesBack (j : Json) (h : JsonWF j) : ParsesBack j := by
  induction h with
  | null => exact parsesBack_null
  | bool b => exact parsesBack_bool b
  | int n => exact parsesBack_int n
  | float neg m e => exact parsesBack_float neg m e
  | str s => exact parsesBack_str s
  | arr l hall ih =>
    cases l with
    | nil =>
      intro rest fuel hb hf
      rw [printJson_arr_nil] at hf ⊢
      obtain ⟨f, rfl⟩ : ∃ f, fuel = f + 1 := ⟨fuel - 1, by simp at hf; omega⟩
      have hsk : skipWs (']' :: rest) = ']' :: rest :=
        skipWs_eq_self _ (by simp [headNot, jsonWs])
      simp [parseVal, hsk]
    | cons x xs =>
      intro rest fuel hb hf
      rw [printJson_arr_cons] at hf ⊢
      obtain ⟨f, rfl⟩ : ∃ f, fuel = f + 1 := ⟨fuel - 1, by simp at hf; omega⟩
      have hshape : ('[' :: (printJson x ++ printItems xs) ++ [']']) ++ rest =
          '[' :: (printJson x ++ (printItems xs ++ ']' :: rest)) := by
        simp
      rw [hshape]
      have hsk : skipWs (printJson x ++ (printItems xs ++ ']' :: rest)) =
          printJson x ++ (printItems xs ++ ']' :: rest) := skipWs_printJson x _
      have harr := parseArrItems_encode xs x (ih x (by simp))
        (fun y hy => ih y (by simp [hy])) []
        (printJson x ++ (printItems xs ++ ']' :: rest)) rest f hsk hb
        (by simp at hf ⊢; omega)
      obtain ⟨c, t, hct, _, hnb, _⟩ := printJson_head_facts x
      rw [hct] at hsk harr ⊢
      simp only [parseVal, List.cons_append]
      simp only [List.cons_append] at hsk harr
      simp [hsk, harr, hnb]
  | obj m hall hk ih =>
    cases m with
    | nil =>
      intro rest fuel hb hf
      rw [printJson_obj_nil] at hf ⊢
      obtain ⟨f, rfl⟩ : ∃ f, fuel = f + 1 := ⟨fuel - 1, by simp at hf; omega⟩
      have hsk : skipWs ('}' :: rest) = '}' :: rest :=
        skipWs_eq_self _ (by simp [headNot, jsonWs])
      simp [parseVal, hsk]
    | cons p ps =>
      intro rest fuel hb hf
      rw [printJson_obj_cons] at hf ⊢
      obtain ⟨f, rfl⟩ : ∃ f, fuel = f + 1 := ⟨fuel - 1, by simp at hf; omega⟩
      have hshape : ('{' :: (encodeStr p.1.data ++ ':' :: ' ' :: printJson p.2 ++
          printMembers ps) ++ ['}']) ++ rest =
          '{' :: (encodeStr p.1.data ++
            ':' :: ' ' :: (printJson p.2 ++ (printMembers ps ++ '}' :: rest))) := by
        simp [List.append_assoc]
      rw [hshape]
      have hes : encodeStr p.1.data =
          '"' :: (p.1.data.foldr (fun c acc => encodeChar c ++ acc) ['"']) := rfl
      have hsk : skipWs (encodeStr p.1.data ++
          ':' :: ' ' :: (printJson p.2 ++ (printMembers ps ++ '}' :: rest))) =
          encodeStr p.1.data ++
            ':' :: ' ' :: (printJson p.2 ++ (printMembers ps ++ '}' :: rest)) := by
        rw [hes, List.cons_append]
        exact skipWs_eq_self _ (by simp [headNot, jsonWs])
      have hobj := parseObjItems_encode ps p (ih p (by simp))
        (fun q hq => ih q (by simp [hq])) []
        (encodeStr p.1.data ++
          ':' :: ' ' :: (printJson p.2 ++ (printMembers ps ++ '}' :: rest))) rest f hsk hb
        (by simpa using hk)
        (by simp at hf ⊢; omega)
      rw [hes] at hsk hobj ⊢
      simp only [parseVal, List.cons_append]
      simp only [List.cons_append] at hsk hobj
      simp [hsk, hobj]

/-- Round trip: `json.loads` undoes `json.dumps` on well-formed values. -/
theorem loads_dumps (j : Json) (h : JsonWF j) : loads (dumps j) = some j := by
  have hp := printJson_parsesBack j h [] (2 * (printJson j).length + 4)
    (by simp [tokenBoundary]) (by omega)
  rw [List.append_nil] at hp
  have hsw : skipWs (printJson j) = printJson j := by
    have := skipWs_printJson j []
    simpa using this
  have hd : (String.mk (printJson j)).data = printJson j := rfl
  unfold loads dumps
  simp only [hd, hsw, hp]
  simp [skipWs]

/-- Values built by `dictInsert` keep well-formed values. -/
theorem dictInsert_values_wf (acc : List (String × Json)) (k : String) (v : Json)
    (hacc : ∀ p ∈ acc, JsonWF p.2) (hv : JsonWF v) :
    ∀ p ∈ dictInsert acc k v, JsonWF p.2 := by
  intro p hp
  unfold dictInsert at hp
  split at hp
  · rcases List.mem_map.mp hp with ⟨q, hq, hfq⟩
    by_cases hqk : q.1 = k
    · rw [if_pos hqk] at hfq
      rw [← hfq]
      exact hv
    · rw [if_neg hqk] at hfq
      rw [← hfq]
      exact hacc q hq
  · rcases List.mem_append.mp hp with hp | hp
    · exact hacc p hp
    · simp only [List.mem_singleton] at hp
      rw [hp]
      exact hv

/-- Keys after `dictInsert`: unchanged on overwrite, appended when fresh. -/
theorem dictInsert_keys (acc : List (String × Json)) (k : String) (v : Json) :
    (dictInsert acc k v).map Prod.fst = acc.map Prod.fst ∨
      ((dictInsert acc k v).map Prod.fst = acc.map Prod.fst ++ [k] ∧
        k ∉ acc.map Prod.fst) := by
  unfold dictInsert
  split
  · left
    rw [List.map_map]
    apply List.map_congr_left
    intro q _
    by_cases hqk : q.1 = k
    · simp [hqk]
    · simp [hqk]
  · right
    rename_i hany
    constructor
    · simp
    · intro hmem
      rcases List.mem_map.mp hmem with ⟨q, hq, hfq⟩
      exact hany (by rw [List.any_eq_true]; exact ⟨q, hq, by simp [hfq]⟩)

/-- `dictInsert` preserves distinctness of keys. -/
theorem dictInsert_keys_nodup (acc : List (String × Json)) (k : String) (v : Json)
    (h : (acc.map Prod.fst).Nodup) :
    ((dictInsert acc k v).map Prod.fst).Nodup := by
  rcases dictInsert_keys acc k v with he | ⟨he, hni⟩
  · rw [he]
    exact h
  · rw [he, List.nodup_append]
    refine ⟨h, by simp, ?_⟩
    intro a ha hak
    simp only [List.mem_singleton] at hak
    rw [hak] at ha
    exact hni ha

/-- Every value the number scanner yields is well-formed. -/
theorem parseNumber_wf (s : List Char) (v : Json) (r : List Char)
    (h : parseNumber s = some (v, r)) : JsonWF v := by
  simp only [parseNumber] at h
  split at h
  · exact absurd h (by simp)
  · split_ifs at h <;>
      (simp only [Option.some.injEq, Prod.mk.injEq] at h
       rw [← h.1]
       first
        | exact JsonWF.int _
        | exact JsonWF.float _ _ _)

/-- Values produced at any level of the scanner are well-formed: in
particular, object keys are pairwise distinct at every depth, as CPython
dicts guarantee. -/
theorem parse_wf : ∀ fuel : Nat,
    (∀ s v r, parseVal fuel s = some (v, r) → JsonWF v) ∧
    (∀ s acc v r, (∀ j ∈ acc, JsonWF j) →
      parseArrItems fuel s acc = some (v, r) → JsonWF v) ∧
    (∀ s acc v r, (∀ p ∈ acc, JsonWF p.2) → (acc.map Prod.fst).Nodup →
      parseObjItems fuel s acc = some (v, r) → JsonWF v) := by
  intro fuel
  induction fuel with
  | zero =>
    refine ⟨?_, ?_, ?_⟩
    · intro s v r h
      simp [parseVal] at h
    · intro s acc v r _ h
      simp [parseArrItems] at h
    · intro s acc v r _ _ h
      simp [parseObjItems] at h
  | succ f ih =>
    obtain ⟨ihv, iha, iho⟩ := ih
    refine ⟨?_, ?_, ?_⟩
    · intro s v r h
      cases s with
      | nil => simp [parseVal] at h
      | cons c t =>
        simp only [parseVal] at h
        split_ifs at h with h1 h2 h3 h4 h5 h6 h7
        · rcases hscan : scanString t with _ | ⟨cs, r'⟩ <;> rw [hscan] at h
          · simp at h
          · simp only [Option.map_some', Option.some.injEq, Prod.mk.injEq] at h
            rw [← h.1]
            exact JsonWF.str _
        · split at h
          · simp only [Option.some.injEq, Prod.mk.injEq] at h
            rw [← h.1]
            exact JsonWF.obj [] (by simp) (by simp)
          · exact iho _ [] v r (by simp) (by simp) h
        · split at h
          · simp only [Option.some.injEq, Prod.mk.injEq] at h
            rw [← h.1]
            exact JsonWF.arr [] (by simp)
          · exact iha _ [] v r (by simp) h
        · split at h
          · simp only [Option.some.injEq, Prod.mk.injEq] at h
            rw [← h.1]
            exact JsonWF.null
          · simp at h
        · split at h
          · simp only [Option.some.injEq, Prod.mk.injEq] at h
            rw [← h.1]
            exact JsonWF.bool true
          · simp at h
        · split at h
          · simp only [Option.some.injEq, Prod.mk.injEq] at h
            rw [← h.1]
            exact JsonWF.bool false
          · simp at h
        · exact parseNumber_wf _ _ _ h
    · intro s acc v r hacc h
      simp only [parseArrItems] at h
      split at h
      · simp at h
      · rename_i v0 rest0 heq
        have hv0 : JsonWF v0 := ihv _ _ _ heq
        split at h
        · refine iha _ (acc ++ [v0]) v r ?_ h
          intro j hj
          rcases List.mem_append.mp hj with hj | hj
          · exact hacc j hj
          · simp only [List.mem_singleton] at hj
            rw [hj]
            exact hv0
        · simp only [Option.some.injEq, Prod.mk.injEq] at h
          rw [← h.1]
          refine JsonWF.arr _ ?_
          intro j hj
          rcases List.mem_append.mp hj with hj | hj
          · exact hacc j hj
          · simp only [List.mem_singleton] at hj
            rw [hj]
            exact hv0
        · simp at h
    · intro s acc v r hacc hnd h
      simp only [parseObjItems] at h
      split at h
      · rename_i t
        split at h
        · simp at h
        · rename_i kcs rest hscan
          split at h
          · rename_i u
            split at h
            · simp at h
            · rename_i v0 rest2 heq
              have hv0 : JsonWF v0 := ihv _ _ _ heq
              split at h
              · exact iho _ (dictInsert acc (String.mk kcs) v0) v r
                  (dictInsert_values_wf _ _ _ hacc hv0)
                  (dictInsert_keys_nodup _ _ _ hnd) h
              · simp only [Option.some.injEq, Prod.mk.injEq] at h
                rw [← h.1]
                exact JsonWF.obj _ (dictInsert_values_wf _ _ _ hacc hv0)
                  (dictInsert_keys_nodup _ _ _ hnd)
              · simp at h
          · simp at h
      · simp at h

/-- Everything `json.loads` returns is well-formed. -/
theorem loads_wf (s : String) (v : Json) (h : loads s = some v) : JsonWF v := by
  unfold loads at h
  split at h
  · simp at h
  · rename_i v0 rest heq
    split_ifs at h
    simp only [Option.some.injEq] at h
    rw [← h]
    exact (parse_wf _).1 _ _ _ heq

/-- `convert_json_format` preserves well-formedness: the records it builds
have the two distinct keys `name` and `value`. -/
theorem convert_json_format_wf (v : Json) (h : JsonWF v) :
    JsonWF (convert_json_format v) := by
  cases v with
  | obj m =>
    simp only [convert_json_format]
    refine JsonWF.arr _ ?_
    intro j hj
    rcases List.mem_map.mp hj with ⟨p, hp, rfl⟩
    refine JsonWF.obj _ ?_ (by simp)
    intro q hq
    simp only [List.mem_cons, List.mem_singleton, List.not_mem_nil, or_false] at hq
    rcases hq with rfl | rfl
    · exact JsonWF.str _
    · cases h with
      | obj _ hall _ => exact hall p hp
  | null => exact h
  | bool b => exact h
  | int n => exact h
  | float neg m e => exact h
  | str s => exact h
  | arr l => exact h

/-- The elements of the built `data_array` are well-formed when the converted
content is. -/
theorem mkDataArray_wf (v : Json) (h : JsonWF v) : ∀ j ∈ mkDataArray v, JsonWF j := by
  cases v with
  | arr l =>
    intro j hj
    simp only [mkDataArray] at hj
    cases h with
    | arr _ hall => exact hall j hj
  | null =>
    intro j hj
    simp only [mkDataArray, List.mem_singleton] at hj
    rw [hj]; exact h
  | bool b =>
    intro j hj
    simp only [mkDataArray, List.mem_singleton] at hj
    rw [hj]; exact h
  | int n =>
    intro j hj
    simp only [mkDataArray, List.mem_singleton] at hj
    rw [hj]; exact h
  | float neg m e =>
    intro j hj
    simp only [mkDataArray, List.mem_singleton] at hj
    rw [hj]; exact h
  | str s =>
    intro j hj
    simp only [mkDataArray, List.mem_singleton] at hj
    rw [hj]; exact h
  | obj m =>
    intro j hj
    simp only [mkDataArray, List.mem_singleton] at hj
    rw [hj]; exact h

/-- An envelope's dict value is well-formed once its data elements are: the
four top-level keys are distinct. -/
theorem envelope_toJson_wf (e : Envelope) (h : ∀ j ∈ e.data, JsonWF j) :
    JsonWF e.toJson := by
  refine JsonWF.obj _ ?_ (by simp)
  intro p hp
  simp only [Envelope.toJson, List.mem_cons, List.mem_singleton,
    List.not_mem_nil, or_false] at hp
  rcases hp with rfl | rfl | rfl | rfl
  · exact JsonWF.arr _ h
  · exact JsonWF.str _
  · exact JsonWF.str _
  · exact JsonWF.int _

/-- Every envelope `on_message` hands to `forward_message` has well-formed
data elements. -/
theorem published_data_wf (st st' : ForwarderState) (topic : String)
    (bytes : List Nat) (now : Int) (env : Envelope)
    (h : on_message st topic bytes now = (st', Outcome.published env)) :
    ∀ j ∈ env.data, JsonWF j := by
  cases hdec : utf8Decode bytes with
  | none =>
    simp only [on_message, hdec] at h
    exact absurd (congrArg Prod.snd h) (by simp)
  | some s =>
    simp only [on_message, hdec] at h
    by_cases hne : pyStrip s = ""
    · rw [text_outcome_of_empty st topic s now hne] at h
      exact absurd (congrArg Prod.snd h) (by simp)
    · by_cases htop : pyStarts topic "status/AMT" = true
      · cases hl : loads (pyStrip s) with
        | none =>
          rw [text_outcome_of_nonjson st topic s now htop hne hl] at h
          have h2 := congrArg Prod.snd h
          simp only [Outcome.published.injEq] at h2
          rw [← h2]
          intro j hj
          simp only [List.mem_singleton] at hj
          rw [hj]
          exact JsonWF.str _
        | some v =>
          rw [text_outcome_of_parse st topic s now v htop hl] at h
          cases ht : v.isTruthy with
          | false =>
            rw [if_pos (by rw [ht])] at h
            exact absurd (congrArg Prod.snd h) (by simp)
          | true =>
            rw [if_neg (by rw [ht]; exact fun hx => Bool.noConfusion hx)] at h
            have h2 := congrArg Prod.snd h
            simp only [Outcome.published.injEq] at h2
            rw [← h2]
            exact mkDataArray_wf _ (convert_json_format_wf v (loads_wf _ v hl))
      · have htop' : pyStarts topic "status/AMT" = false := by
          cases hx : pyStarts topic "status/AMT"
          · rfl
          · exact absurd hx htop
        rw [text_outcome_notMatched st topic s now hne htop'] at h
        exact absurd (congrArg Prod.snd h) (by simp)

/-- C9: serializing any envelope the handler publishes
(`json.dumps(forward_data, ensure_ascii=False)`) and parsing the text back
yields exactly the envelope's dict: all four fields (`data`, `SN`, `Type`,
`flexem_timestamp`) survive with no field loss and no coercion of nested
values (floats being modelled as exact decimal literals). -/
theorem C9_roundtrip (st st' : ForwarderState) (topic : String) (bytes : List Nat)
    (now : Int) (env : Envelope)
    (h : on_message st topic bytes now = (st', Outcome.published env)) :
    loads (serializeEnvelope env) = some env.toJson :=
  loads_dumps env.toJson
    (envelope_toJson_wf env (published_data_wf st st' topic bytes now env h))

/-- C9 witness: the round trip at a concretely published envelope. -/
theorem C9_roundtrip_witness :
    on_message sampleState "status/AMT1" (asciiBytes "\x7b\"a\": 1\x7d") 7 =
        (sampleState, Outcome.published
          ⟨[Json.obj [("name", Json.str "a"), ("value", Json.int 1)]],
            "AMT1", "park", 7⟩) ∧
      loads (serializeEnvelope
          ⟨[Json.obj [("name", Json.str "a"), ("value", Json.int 1)]],
            "AMT1", "park", 7⟩) =
        some (Envelope.toJson
          ⟨[Json.obj [("name", Json.str "a"), ("value", Json.int 1)]],
            "AMT1", "park", 7⟩) :=
  ⟨by rfl,
    C9_roundtrip sampleState sampleState "status/AMT1" (asciiBytes "\x7b\"a\": 1\x7d") 7
      ⟨[Json.obj [("name", Json.str "a"), ("value", Json.int 1)]], "AMT1", "park", 7⟩
      (by rfl)⟩

end MqttForwarder
